import Mathlib

/-!
Verification of the hex-palette color pipeline (src/assets/js/app.js).

The JavaScript number arithmetic is embedded as exact rational arithmetic
(`ℚ`), except for relative luminance, whose `Math.pow(·, 2.4)` is embedded
as the real power function on `ℝ`.  `Math.round x` is `⌊x + 1/2⌋`,
JavaScript's `%` is the truncated remainder, and `toLowerCase` is modelled
on its ASCII fragment (the only fragment the color pipeline exercises).
-/

namespace HexPalette

/-- JS `Math.round` on rationals: round half toward positive infinity. -/
def jsRound (x : ℚ) : ℤ := ⌊x + 1/2⌋

/-- Truncation toward zero, as JS does for the `%` operator. -/
def jsTrunc (x : ℚ) : ℤ := if 0 ≤ x then ⌊x⌋ else -⌊-x⌋

/-- JS `%`: remainder with the sign of the dividend. -/
def jsMod (a b : ℚ) : ℚ := a - b * (jsTrunc (a / b) : ℚ)

/-- Value of one lowercase hex digit (other characters give 0; the code
only feeds this validated digits). -/
def hexDigitVal (c : Char) : ℕ :=
  if '0' ≤ c ∧ c ≤ '9' then c.toNat - '0'.toNat
  else if 'a' ≤ c ∧ c ≤ 'f' then c.toNat - 'a'.toNat + 10
  else 0

/-- One character of the `[0-9a-f]` class. -/
def validHexChar (c : Char) : Bool :=
  (('0' ≤ c && c ≤ '9') || ('a' ≤ c && c ≤ 'f'))

/-- The regex `/^#[0-9a-f]{6}$/` from `updateUI` (line 157). -/
def validHex (s : String) : Bool :=
  match s.data with
  | ['#', c1, c2, c3, c4, c5, c6] =>
      validHexChar c1 && validHexChar c2 && validHexChar c3 &&
      validHexChar c4 && validHexChar c5 && validHexChar c6
  | _ => false

/-- `parseInt(·, 16)` on a digit list (the code's use on `hex.slice(1)`). -/
def parseHexNat (cs : List Char) : ℕ :=
  cs.foldl (fun acc c => 16 * acc + hexDigitVal c) 0

/-- `hexToRgb` (lines 15-18): parse as 24-bit int, split into bytes. -/
def hexToRgb (s : String) : ℕ × ℕ × ℕ :=
  let bigint := parseHexNat (s.data.drop 1)
  (bigint / 65536 % 256, bigint / 256 % 256, bigint % 256)

/-- The clamped triangle wave `Math.max(Math.min(k - 3, 9 - k, 1), -1)`
from `hslToHex` (line 40). -/
def mClamp (k : ℚ) : ℚ := max (min (min (k - 3) (9 - k)) 1) (-1)

/-- `k = (n + h / 30) % 12` from `hslToHex` (line 39). -/
def chanK (h : ℚ) (n : ℕ) : ℚ := jsMod ((n : ℚ) + h / 30) 12

/-- The unrounded channel value `color` from `hslToHex` (lines 36-40). -/
def chanColor (h s l : ℚ) (n : ℕ) : ℚ :=
  let l' := l / 100
  let a := s * min l' (1 - l') / 100
  l' - a * mClamp (chanK h n)

/-- `Math.round(255 * color)` from `hslToHex` (line 41). -/
def chanByte (h s l : ℚ) (n : ℕ) : ℤ := jsRound (255 * chanColor h s l n)

/-- The amplitude `a = s * min(l, 1 - l) / 100` of `hslToHex` (line 37),
with `l` already divided by 100. -/
def satMinTerm (s l : ℚ) : ℚ := s * min (l / 100) (1 - l / 100) / 100

/-- JS `Number.prototype.toString(16)` for naturals (lowercase digits). -/
def natToHexStr (n : ℕ) : String := String.mk (Nat.toDigits 16 n)

/-- JS `toString(16)` on an integer (negative values get a minus sign). -/
def byteToString (i : ℤ) : String :=
  if i < 0 then "-" ++ natToHexStr i.natAbs else natToHexStr i.toNat

/-- JS `padStart(2, '0')`. -/
def padStart2 (s : String) : String :=
  String.mk (List.replicate (2 - s.length) '0' ++ s.data)

/-- `hslToHex` (lines 35-44): hue in degrees, saturation/lightness in
percent, to a `#rrggbb` string. -/
def hslToHex (h s l : ℚ) : String :=
  "#" ++ padStart2 (byteToString (chanByte h s l 0)) ++
    padStart2 (byteToString (chanByte h s l 8)) ++
    padStart2 (byteToString (chanByte h s l 4))

/-- `Math.max(rr, gg, bb)` of the normalized channels (line 49). -/
def rgbMax (r g b : ℕ) : ℚ := max (max ((r : ℚ) / 255) ((g : ℚ) / 255)) ((b : ℚ) / 255)

/-- `Math.min(rr, gg, bb)` of the normalized channels (line 49). -/
def rgbMin (r g b : ℕ) : ℚ := min (min ((r : ℚ) / 255) ((g : ℚ) / 255)) ((b : ℚ) / 255)

/-- Exact (unrounded) lightness `l = (max + min) / 2` (line 50). -/
def lightFrac (r g b : ℕ) : ℚ := (rgbMax r g b + rgbMin r g b) / 2

/-- Exact (unrounded) saturation from `hexToHsl` (lines 52-56). -/
def satFrac (r g b : ℕ) : ℚ :=
  if rgbMax r g b = rgbMin r g b then 0
  else
    let d := rgbMax r g b - rgbMin r g b
    if lightFrac r g b > 1/2 then d / (2 - rgbMax r g b - rgbMin r g b)
    else d / (rgbMax r g b + rgbMin r g b)

/-- Exact (unrounded) hue fraction in [0,1) from `hexToHsl` (lines 52-63):
the 60°-sector switch on which channel is the maximum, divided by 6. -/
def hueFrac (r g b : ℕ) : ℚ :=
  if rgbMax r g b = rgbMin r g b then 0
  else
    let rr := (r : ℚ) / 255
    let gg := (g : ℚ) / 255
    let bb := (b : ℚ) / 255
    let d := rgbMax r g b - rgbMin r g b
    (if rgbMax r g b = rr then (gg - bb) / d + (if gg < bb then 6 else 0)
     else if rgbMax r g b = gg then (bb - rr) / d + 2
     else (rr - gg) / d + 4) / 6

/-- `hexToHsl` on a byte triple: rounded degree/percent integers (line 64). -/
def rgbToHsl (r g b : ℕ) : ℤ × ℤ × ℤ :=
  (jsRound (hueFrac r g b * 360), jsRound (satFrac r g b * 100),
   jsRound (lightFrac r g b * 100))

/-- `hexToHsl` (lines 46-65). -/
def hexToHsl (s : String) : ℤ × ℤ × ℤ :=
  let rgb := hexToRgb s
  rgbToHsl rgb.1 rgb.2.1 rgb.2.2

/-- `clamp` (lines 67-69). -/
def clamp (value mn mx : ℤ) : ℤ := min (max value mn) mx

/-- `generateVariantFromHex` (lines 86-93).  The two draws from the
process-wide random source are passed in explicitly: `lightShift` is the
drawn lightness shift and `satShift` the drawn saturation shift; the
reachable draw ranges appear as hypotheses of the theorems about it. -/
def generateVariantFromHex (hex : String) (lightShift satShift : ℤ) : String :=
  let base := hexToHsl hex
  let newLightness := clamp (base.2.2 + lightShift) 5 95
  let newSaturation := clamp (base.2.1 + satShift) 10 95
  hslToHex (base.1 : ℚ) (newSaturation : ℚ) (newLightness : ℚ)

/-- The round trip of the spec's round-trip property: convert a hex color
to integer HSL with `hexToHsl` and back with `hslToHex`. -/
def hexRoundTrip (s : String) : String :=
  let hsl := hexToHsl s
  hslToHex (hsl.1 : ℚ) (hsl.2.1 : ℚ) (hsl.2.2 : ℚ)

/-- Derived closed form: the largest byte `hslToHex` emits for integer
saturation/lightness percentages, `Math.round(255(l+a))` as pure natural
division (used to analyse what decoding a variant gives back). -/
def variantByteHi (S L : ℕ) : ℕ :=
  (2 * (255 * (100 * L + S * min L (100 - L))) + 10000) / 20000

/-- Derived closed form: the smallest byte `hslToHex` emits,
`Math.round(255(l-a))` as pure natural division. -/
def variantByteLo (S L : ℕ) : ℕ :=
  (2 * (255 * (100 * L - S * min L (100 - L))) + 10000) / 20000

/-- Derived closed form: the lightness percent `hexToHsl` reads back from
a byte pair (max byte, min byte). -/
def decodeLight (bmx bmn : ℕ) : ℕ := (2 * (100 * (bmx + bmn)) + 510) / 1020

/-- Derived closed form: the saturation percent `hexToHsl` reads back
from a chromatic byte pair (max byte, min byte). -/
def decodeSat (bmx bmn : ℕ) : ℕ :=
  if 255 < bmx + bmn then
    (2 * (100 * (bmx - bmn)) + (510 - (bmx + bmn))) / (2 * (510 - (bmx + bmn)))
  else (2 * (100 * (bmx - bmn)) + (bmx + bmn)) / (2 * (bmx + bmn))

/-- One palette swatch: `{ name, hex, desc }` (lines 143-150). -/
structure PaletteEntry where
  name : String
  hex : String
  desc : String
deriving DecidableEq

/-- `generatePalette` (lines 131-151).  The source also computes a
`secondaryDarker` value (line 138) that is never placed in the palette. -/
def generatePalette (primaryHex secondaryHex : String) : List PaletteEntry :=
  let p := hexToHsl primaryHex
  let s := hexToHsl secondaryHex
  let primaryLighter := hslToHex (p.1 : ℚ) (p.2.1 : ℚ) ((min 100 (p.2.2 + 15) : ℤ) : ℚ)
  let primaryDarker := hslToHex (p.1 : ℚ) (p.2.1 : ℚ) ((max 10 (p.2.2 - 20) : ℤ) : ℚ)
  let secondaryLighter := hslToHex (s.1 : ℚ) (s.2.1 : ℚ) ((min 100 (s.2.2 + 15) : ℤ) : ℚ)
  let _secondaryDarker := hslToHex (s.1 : ℚ) (s.2.1 : ℚ) ((max 10 (s.2.2 - 20) : ℤ) : ℚ)
  let neutralH := jsRound (((p.1 + s.1 : ℤ) : ℚ) / 2) % 360
  let neutral := hslToHex (neutralH : ℚ) 5 95
  [⟨"Primary", primaryHex, "Base Color"⟩,
   ⟨"Primary-L", primaryLighter, "Light Tint"⟩,
   ⟨"Primary-D", primaryDarker, "Dark Shade"⟩,
   ⟨"Secondary", secondaryHex, "Accent Color"⟩,
   ⟨"Secondary-L", secondaryLighter, "Light Accent Tint"⟩,
   ⟨"Neutral", neutral, "Background/Base"⟩]

/-- One mood preset (lines 78-84). -/
structure MoodPreset where
  label : String
  emoji : String
  primary : String
  secondary : String
deriving DecidableEq

/-- `DEFAULT_MOOD` (line 75). -/
def DEFAULT_MOOD : String := "calm"

/-- The `calm` preset, the designated fallback (line 79; the emoji string
is embedded as the exact code points stored in the source file). -/
def calmPreset : MoodPreset :=
  ⟨"Calm Drift", "ã€°ï¸\u008F", "#5468ff", "#bfe0ff"⟩

/-- The own properties of the `moodPalettes` object literal (lines
78-84): `some` on its five own keys, `none` otherwise. -/
def moodPalettes (key : String) : Option MoodPreset :=
  if key = "calm" then some calmPreset
  else if key = "noir" then
    some ⟨"Night Grid", "â—¼ï¸\u008F", "#0b1116", "#f5eddc"⟩
  else if key = "bloom" then
    some ⟨"Bloom Pop", "âœ¿", "#f2547d", "#ffd9e8"⟩
  else if key = "solar" then
    some ⟨"Solar Flash", "âš¡", "#ff6b00", "#ffe4a0"⟩
  else if key = "fresh" then
    some ⟨"Fresh Cut", "âœ³ï¸\u008F", "#1fbf8f", "#d9ffe5"⟩
  else none

/-- A value a JS property read on the mood object can produce: one of its
own presets, a member inherited from `Object.prototype` (a function, or
for `__proto__` the prototype object itself), or `undefined`. -/
inductive JsProp where
  | preset (m : MoodPreset)
  | protoMember (name : String)
  | undef
deriving DecidableEq

/-- The property names every JS object literal inherits from
`Object.prototype`: a bracket read finds these when no own property
matches, and the `in` operator reports them as present. -/
def objectPrototypeKeys : List String :=
  ["constructor", "hasOwnProperty", "isPrototypeOf", "propertyIsEnumerable",
   "toLocaleString", "toString", "valueOf", "__proto__", "__defineGetter__",
   "__defineSetter__", "__lookupGetter__", "__lookupSetter__"]

/-- `moodPalettes[key]`: JS bracket lookup walks the prototype chain, so
a key that is not an own property can still find an inherited
`Object.prototype` member; only otherwise is it `undefined`. -/
def moodPalettesGet (key : String) : JsProp :=
  match moodPalettes key with
  | some m => JsProp.preset m
  | none =>
      if key ∈ objectPrototypeKeys then JsProp.protoMember key else JsProp.undef

/-- JS truthiness of the property read: `undefined` is falsy; presets and
inherited members (functions and the prototype object) are truthy. -/
def jsTruthy (v : JsProp) : Bool :=
  match v with
  | JsProp.undef => false
  | _ => true

/-- `moodKey in moodPalettes` (line 104): the `in` operator also reports
inherited `Object.prototype` properties as present. -/
def moodPalettesHas (key : String) : Bool :=
  (moodPalettes key).isSome || decide (key ∈ objectPrototypeKeys)

/-- The resolution step of `applyMood` (lines 102-104): the value used
(`moodPalettes[moodKey] || moodPalettes[DEFAULT_MOOD]`, where JS `||`
keeps the left operand whenever it is truthy) together with the resolved
key (`moodKey in moodPalettes ? moodKey : DEFAULT_MOOD`).  The DOM
synchronization and toast of lines 106-117 are out of scope. -/
def applyMood (moodKey : String) : String × JsProp :=
  ((if moodPalettesHas moodKey then moodKey else DEFAULT_MOOD),
   (if jsTruthy (moodPalettesGet moodKey) then moodPalettesGet moodKey
    else moodPalettesGet DEFAULT_MOOD))

/-- Per-channel sRGB linearization from `getLuminance` (lines 21-24),
with `Math.pow(·, 2.4)` embedded as the real power function. -/
noncomputable def chanLin (c : ℕ) : ℝ :=
  let v : ℝ := (c : ℝ) / 255
  if v ≤ 0.03928 then v / 12.92 else ((v + 0.055) / 1.055) ^ (2.4 : ℝ)

/-- `getLuminance` (lines 20-26) on a parsed byte triple. -/
noncomputable def getLuminance (r g b : ℕ) : ℝ :=
  0.2126 * chanLin r + 0.7152 * chanLin g + 0.0722 * chanLin b

/-- The luminance of a hex string, `getLuminance(hexToRgb(hex))`. -/
noncomputable def lumOf (s : String) : ℝ :=
  let rgb := hexToRgb s
  getLuminance rgb.1 rgb.2.1 rgb.2.2

/-- The unrounded ratio `(max(l1,l2)+0.05)/(min(l1,l2)+0.05)` (line 31). -/
noncomputable def getContrastRatioRaw (hex1 hex2 : String) : ℝ :=
  (max (lumOf hex1) (lumOf hex2) + 0.05) / (min (lumOf hex1) (lumOf hex2) + 0.05)

/-- `Math.round` on reals. -/
noncomputable def jsRoundR (x : ℝ) : ℤ := ⌊x + 1/2⌋

/-- Ten times the rounded contrast ratio, `Math.round(ratio * 10)`. -/
noncomputable def getContrastRatioTimes10 (hex1 hex2 : String) : ℤ :=
  jsRoundR (getContrastRatioRaw hex1 hex2 * 10)

/-- `getContrastRatio` (lines 28-33): the ratio rounded to one decimal. -/
noncomputable def getContrastRatio (hex1 hex2 : String) : ℝ :=
  (getContrastRatioTimes10 hex1 hex2 : ℝ) / 10

/-- JS default decimal rendering of `n / 10` for an integer `n ≥ 0`:
whole numbers print without a fractional part. -/
def ratioToString (n : ℤ) : String :=
  if n % 10 = 0 then toString (n / 10)
  else toString (n / 10) ++ "." ++ toString (n % 10)

/-- The contrast line `Ratio {ratio}:1 / {PASS|FAIL} AA / primary on
neutral` (lines 189-192). -/
noncomputable def contrastLine (primaryText neutralBg : String) : String :=
  let ratio := getContrastRatio primaryText neutralBg
  "Ratio " ++ ratioToString (getContrastRatioTimes10 primaryText neutralBg) ++
    ":1 / " ++ (if 4.5 ≤ ratio then "PASS AA" else "FAIL AA") ++ " / primary on neutral"

/-- The observable result of `updateUI`: the contrast line's text and the
palette placed in the display (`none` models the cleared display). -/
structure UIView where
  contrastText : String
  paletteDisplay : Option (List PaletteEntry)

/-- ASCII fragment of JS `toLowerCase` (the shape test only ever accepts
ASCII, so only the A-Z range is relevant to the pipeline). -/
def jsToLowerChar (c : Char) : Char :=
  if 'A' ≤ c ∧ c ≤ 'Z' then Char.ofNat (c.toNat + 32) else c

/-- `value.toLowerCase()` as used in `updateUI` (lines 154-155). -/
def jsToLower (s : String) : String := String.mk (s.data.map jsToLowerChar)

/-- `updateUI` (lines 153-193) as a pure function of the two raw input
strings: lowercase both, halt on the shape check, otherwise render the
palette and the contrast line (the HTML/CSS string assembly and DOM
writes are out of scope). -/
noncomputable def updateUI (primaryRaw secondaryRaw : String) : UIView :=
  let primaryHex := jsToLower primaryRaw
  let secondaryHex := jsToLower secondaryRaw
  if validHex primaryHex && validHex secondaryHex then
    let palette := generatePalette primaryHex secondaryHex
    let primaryText := ((palette.find? (fun e => e.name == "Primary")).getD ⟨"", "", ""⟩).hex
    let neutralBg := ((palette.find? (fun e => e.name == "Neutral")).getD ⟨"", "", ""⟩).hex
    { contrastText := contrastLine primaryText neutralBg,
      paletteDisplay := some palette }
  else
    { contrastText := "Waiting for valid hex.", paletteDisplay := none }

/-! ### Rounding and remainder: basic facts -/

theorem jsRound_le {x : ℚ} {c : ℤ} (h : x ≤ c) : jsRound x ≤ c := by
  have : x + 1/2 < (c : ℚ) + 1 := by linarith
  exact Int.le_of_lt_add_one (Int.floor_lt.mpr (by push_cast; linarith))

theorem le_jsRound {x : ℚ} {c : ℤ} (h : (c : ℚ) ≤ x) : c ≤ jsRound x :=
  Int.le_floor.mpr (by push_cast; linarith)

theorem jsRound_close (x : ℚ) : |(jsRound x : ℚ) - x| ≤ 1/2 := by
  have h1 : (jsRound x : ℚ) ≤ x + 1/2 := Int.floor_le (x + 1/2)
  have h2 : x + 1/2 - 1 < (jsRound x : ℚ) := Int.sub_one_lt_floor (x + 1/2)
  rw [abs_le]
  constructor <;> linarith

theorem jsRound_mono {x y : ℚ} (h : x ≤ y) : jsRound x ≤ jsRound y :=
  Int.floor_mono (by linarith)

theorem jsRound_intCast (c : ℤ) : jsRound (c : ℚ) = c := by
  rw [jsRound, Int.floor_eq_iff (α := ℚ)] <;> constructor <;> push_cast <;> linarith

/-- `jsRound` of a quotient of naturals, as pure natural division. -/
theorem jsRound_natDiv (p q : ℕ) (hq : 0 < q) :
    jsRound ((p : ℚ) / q) = ((2 * p + q) / (2 * q) : ℕ) := by
  have hq' : (q : ℚ) ≠ 0 := Nat.cast_ne_zero.mpr hq.ne'
  have harg : (p : ℚ) / q + 1/2 = ((2 * p + q : ℕ) : ℤ) / ((2 * q : ℕ) : ℚ) := by
    push_cast
    field_simp
    ring
  rw [jsRound, harg, Rat.floor_intCast_div_natCast]
  have := Int.ofNat_div (2 * p + q) (2 * q)
  omega

theorem jsMod_of_nonneg_lt {x : ℚ} (h0 : 0 ≤ x) (h12 : x < 12) : jsMod x 12 = x := by
  have hfl : ⌊x / 12⌋ = 0 := by
    rw [Int.floor_eq_iff]
    constructor
    · positivity
    · push_cast
      linarith
  rw [jsMod, jsTrunc, if_pos (by positivity), hfl]
  push_cast
  ring

theorem jsMod_of_ge {x : ℚ} (h0 : 12 ≤ x) (h24 : x < 24) : jsMod x 12 = x - 12 := by
  have hfl : ⌊x / 12⌋ = 1 := by
    rw [Int.floor_eq_iff]
    constructor
    · push_cast
      linarith
    · push_cast
      linarith
  rw [jsMod, jsTrunc, if_pos (by positivity), hfl]
  push_cast
  ring

/-! ### The clamped triangle wave -/

theorem mClamp_le_one (k : ℚ) : mClamp k ≤ 1 := by
  rw [mClamp]
  rcases le_total (min (min (k - 3) (9 - k)) 1) (-1) with h | h
  · rw [max_eq_right h]; norm_num
  · rw [max_eq_left h]
    exact min_le_right _ _

theorem neg_one_le_mClamp (k : ℚ) : -1 ≤ mClamp k := le_max_right _ _

theorem mClamp_of_le_two {k : ℚ} (h : k ≤ 2) : mClamp k = -1 := by
  rw [mClamp, max_eq_right]
  calc min (min (k - 3) (9 - k)) 1 ≤ min (k - 3) (9 - k) := min_le_left _ _
    _ ≤ k - 3 := min_le_left _ _
    _ ≤ -1 := by linarith

theorem mClamp_of_ge_ten {k : ℚ} (h : 10 ≤ k) : mClamp k = -1 := by
  rw [mClamp, max_eq_right]
  calc min (min (k - 3) (9 - k)) 1 ≤ min (k - 3) (9 - k) := min_le_left _ _
    _ ≤ 9 - k := min_le_right _ _
    _ ≤ -1 := by linarith

theorem mClamp_of_mem_four_eight {k : ℚ} (h4 : 4 ≤ k) (h8 : k ≤ 8) : mClamp k = 1 := by
  have hmin : min (min (k - 3) (9 - k)) 1 = 1 := by
    rw [min_eq_right]
    rw [le_min_iff]
    constructor <;> linarith
  rw [mClamp, hmin, max_eq_left (by norm_num)]

theorem mClamp_of_mem_two_four {k : ℚ} (h2 : 2 ≤ k) (h4 : k ≤ 4) : mClamp k = k - 3 := by
  have h1 : min (k - 3) (9 - k) = k - 3 := min_eq_left (by linarith)
  have h2' : min (k - 3) 1 = k - 3 := min_eq_left (by linarith)
  rw [mClamp, h1, h2', max_eq_left (by linarith)]

theorem mClamp_of_mem_eight_ten {k : ℚ} (h8 : 8 ≤ k) (h10 : k ≤ 10) : mClamp k = 9 - k := by
  have h1 : min (k - 3) (9 - k) = 9 - k := min_eq_right (by linarith)
  have h2 : min (9 - k) 1 = 9 - k := min_eq_left (by linarith)
  rw [mClamp, h1, h2, max_eq_left (by linarith)]

/-! ### Channel values of `hslToHex` -/

theorem chanColor_eq (h s l : ℚ) (n : ℕ) :
    chanColor h s l n = l / 100 - satMinTerm s l * mClamp (chanK h n) := rfl

theorem satMinTerm_nonneg {s l : ℚ} (hs : 0 ≤ s) (hl0 : 0 ≤ l) (hl1 : l ≤ 100) :
    0 ≤ satMinTerm s l := by
  have h1 : 0 ≤ min (l / 100) (1 - l / 100) := le_min (by linarith) (by linarith)
  rw [satMinTerm]
  positivity

theorem satMinTerm_le {s l : ℚ} (hs : s ≤ 100) (hs0 : 0 ≤ s) (hl0 : 0 ≤ l)
    (hl1 : l ≤ 100) : satMinTerm s l ≤ min (l / 100) (1 - l / 100) := by
  have h : 0 ≤ min (l / 100) (1 - l / 100) := le_min (by linarith) (by linarith)
  rw [satMinTerm, div_le_iff (by norm_num : (0:ℚ) < 100)]
  nlinarith

theorem satMinTerm_le_half {s l : ℚ} (hs : s ≤ 100) (hs0 : 0 ≤ s) (hl0 : 0 ≤ l)
    (hl1 : l ≤ 100) : satMinTerm s l ≤ 1/2 := by
  have h := satMinTerm_le (l := l) hs hs0 hl0 hl1
  have h2 : min (l / 100) (1 - l / 100) ≤ 1/2 := by
    rcases le_total (l / 100) (1 - l / 100) with hc | hc
    · rw [min_eq_left hc]; linarith
    · rw [min_eq_right hc]; linarith
  linarith

theorem chanColor_bounds {h s l : ℚ} (hs0 : 0 ≤ s) (hs1 : s ≤ 100) (hl0 : 0 ≤ l)
    (hl1 : l ≤ 100) (n : ℕ) :
    l / 100 - satMinTerm s l ≤ chanColor h s l n ∧
      chanColor h s l n ≤ l / 100 + satMinTerm s l := by
  rw [chanColor_eq]
  have ha := satMinTerm_nonneg hs0 hl0 hl1
  have h1 := mClamp_le_one (chanK h n)
  have h2 := neg_one_le_mClamp (chanK h n)
  constructor <;> nlinarith

theorem chanColor_mem {h s l : ℚ} (hs0 : 0 ≤ s) (hs1 : s ≤ 100) (hl0 : 0 ≤ l)
    (hl1 : l ≤ 100) (n : ℕ) : 0 ≤ chanColor h s l n ∧ chanColor h s l n ≤ 1 := by
  obtain ⟨hlo, hhi⟩ := chanColor_bounds (h := h) hs0 hs1 hl0 hl1 n
  have ha := satMinTerm_le (l := l) hs1 hs0 hl0 hl1
  have hm1 : min (l / 100) (1 - l / 100) ≤ l / 100 := min_le_left _ _
  have hm2 : min (l / 100) (1 - l / 100) ≤ 1 - l / 100 := min_le_right _ _
  constructor <;> linarith

theorem chanByte_mem {h s l : ℚ} (hs0 : 0 ≤ s) (hs1 : s ≤ 100) (hl0 : 0 ≤ l)
    (hl1 : l ≤ 100) (n : ℕ) : 0 ≤ chanByte h s l n ∧ chanByte h s l n ≤ 255 := by
  obtain ⟨h0, h1⟩ := chanColor_mem (h := h) hs0 hs1 hl0 hl1 n
  constructor
  · exact le_jsRound (by push_cast; nlinarith)
  · exact jsRound_le (by push_cast; nlinarith)

/-! ### Byte printing and parsing -/

set_option maxRecDepth 4000 in
theorem byte_print_two_chars :
    ∀ n : ℕ, n < 256 →
      (padStart2 (natToHexStr n)).data.length = 2 ∧
      ((padStart2 (natToHexStr n)).data.all validHexChar = true) ∧
      parseHexNat (padStart2 (natToHexStr n)).data = n := by decide

theorem byteToString_toNat {i : ℤ} (h0 : 0 ≤ i) : byteToString i = natToHexStr i.toNat := by
  rw [byteToString, if_neg (by omega)]

/-- `parseHexNat`-style fold from an arbitrary accumulator. -/
theorem parseHexNat_fold_acc (l : List Char) :
    ∀ A : ℕ, l.foldl (fun acc c => 16 * acc + hexDigitVal c) A =
      A * 16 ^ l.length + parseHexNat l := by
  induction l with
  | nil => intro A; simp [parseHexNat]
  | cons c t ih =>
      intro A
      have h2 : parseHexNat (c :: t) = hexDigitVal c * 16 ^ t.length + parseHexNat t := by
        rw [parseHexNat, List.foldl_cons, ih]
        simp
      rw [List.foldl_cons, ih, h2, List.length_cons]
      ring

/-- `parseHexNat` over an append splits positionally. -/
theorem parseHexNat_append (l1 l2 : List Char) :
    parseHexNat (l1 ++ l2) = parseHexNat l1 * 16 ^ l2.length + parseHexNat l2 := by
  rw [parseHexNat, List.foldl_append, ← parseHexNat, parseHexNat_fold_acc]

/-- Parsing back the string printed by `hslToHex`: the three rounded bytes
are recovered exactly (this is `parseInt` inverting `toString(16)`). -/
theorem hexToRgb_hslToHex {h s l : ℚ} (hs0 : 0 ≤ s) (hs1 : s ≤ 100) (hl0 : 0 ≤ l)
    (hl1 : l ≤ 100) :
    hexToRgb (hslToHex h s l) =
      ((chanByte h s l 0).toNat, (chanByte h s l 8).toNat, (chanByte h s l 4).toNat) := by
  obtain ⟨hr0, hr1⟩ := chanByte_mem (h := h) hs0 hs1 hl0 hl1 0
  obtain ⟨hg0, hg1⟩ := chanByte_mem (h := h) hs0 hs1 hl0 hl1 8
  obtain ⟨hb0, hb1⟩ := chanByte_mem (h := h) hs0 hs1 hl0 hl1 4
  set r := (chanByte h s l 0).toNat with hrdef
  set g := (chanByte h s l 8).toNat with hgdef
  set b := (chanByte h s l 4).toNat with hbdef
  have hrlt : r < 256 := by omega
  have hglt : g < 256 := by omega
  have hblt : b < 256 := by omega
  obtain ⟨hlen_r, _, hparse_r⟩ := byte_print_two_chars r hrlt
  obtain ⟨hlen_g, _, hparse_g⟩ := byte_print_two_chars g hglt
  obtain ⟨hlen_b, _, hparse_b⟩ := byte_print_two_chars b hblt
  have hbig : parseHexNat ((padStart2 (natToHexStr r)).data ++
      ((padStart2 (natToHexStr g)).data ++ (padStart2 (natToHexStr b)).data)) =
      r * 65536 + g * 256 + b := by
    rw [parseHexNat_append, parseHexNat_append]
    rw [hparse_r, hparse_g, hparse_b, List.length_append, hlen_g, hlen_b]
    norm_num
    ring
  have hdata : (hslToHex h s l).data =
      '#' :: ((padStart2 (natToHexStr r)).data ++
        ((padStart2 (natToHexStr g)).data ++ (padStart2 (natToHexStr b)).data)) := by
    rw [hslToHex, byteToString_toNat hr0, byteToString_toNat hg0, byteToString_toNat hb0]
    rw [← hrdef, ← hgdef, ← hbdef]
    simp [String.data_append]
  rw [hexToRgb, hdata]
  simp only [List.drop_succ_cons, List.drop_zero, hbig]
  have e1 : (r * 65536 + g * 256 + b) / 65536 % 256 = r := by omega
  have e2 : (r * 65536 + g * 256 + b) / 256 % 256 = g := by omega
  have e3 : (r * 65536 + g * 256 + b) % 256 = b := by omega
  rw [e1, e2, e3]

/-- The string printed by `hslToHex` always matches `/^#[0-9a-f]{6}$/`
when saturation and lightness are percentages in range. -/
theorem validHex_hslToHex {h s l : ℚ} (hs0 : 0 ≤ s) (hs1 : s ≤ 100) (hl0 : 0 ≤ l)
    (hl1 : l ≤ 100) : validHex (hslToHex h s l) = true := by
  obtain ⟨hr0, hr1⟩ := chanByte_mem (h := h) hs0 hs1 hl0 hl1 0
  obtain ⟨hg0, hg1⟩ := chanByte_mem (h := h) hs0 hs1 hl0 hl1 8
  obtain ⟨hb0, hb1⟩ := chanByte_mem (h := h) hs0 hs1 hl0 hl1 4
  obtain ⟨hlen_r, hall_r, _⟩ := byte_print_two_chars (chanByte h s l 0).toNat (by omega)
  obtain ⟨hlen_g, hall_g, _⟩ := byte_print_two_chars (chanByte h s l 8).toNat (by omega)
  obtain ⟨hlen_b, hall_b, _⟩ := byte_print_two_chars (chanByte h s l 4).toNat (by omega)
  rw [hslToHex, byteToString_toNat hr0, byteToString_toNat hg0, byteToString_toNat hb0]
  obtain ⟨r1, r2, hr⟩ := List.length_eq_two.mp hlen_r
  obtain ⟨g1, g2, hg⟩ := List.length_eq_two.mp hlen_g
  obtain ⟨b1, b2, hb⟩ := List.length_eq_two.mp hlen_b
  rw [hr] at hall_r
  rw [hg] at hall_g
  rw [hb] at hall_b
  simp only [List.all_cons, List.all_nil, Bool.and_true, Bool.and_eq_true] at hall_r hall_g hall_b
  rw [validHex]
  have hdata : ("#" ++ padStart2 (natToHexStr (chanByte h s l 0).toNat) ++
      padStart2 (natToHexStr (chanByte h s l 8).toNat) ++
      padStart2 (natToHexStr (chanByte h s l 4).toNat)).data =
      ['#', r1, r2, g1, g2, b1, b2] := by
    simp [String.data_append, hr, hg, hb]
  rw [hdata]
  simp [hall_r.1, hall_r.2, hall_g.1, hall_g.2, hall_b.1, hall_b.2]

/-! ### Ranges of the exact HSL fractions -/

theorem hexToRgb_le_255 (s : String) :
    (hexToRgb s).1 ≤ 255 ∧ (hexToRgb s).2.1 ≤ 255 ∧ (hexToRgb s).2.2 ≤ 255 := by
  refine ⟨?_, ?_, ?_⟩ <;> exact Nat.le_of_lt_succ (Nat.mod_lt _ (by norm_num))

theorem rgbMin_nonneg (r g b : ℕ) : 0 ≤ rgbMin r g b :=
  le_min (le_min (by positivity) (by positivity)) (by positivity)

theorem rgbMax_le_one {r g b : ℕ} (hr : r ≤ 255) (hg : g ≤ 255) (hb : b ≤ 255) :
    rgbMax r g b ≤ 1 := by
  have h255 : (0:ℚ) < 255 := by norm_num
  refine max_le (max_le ?_ ?_) ?_ <;> rw [div_le_one h255] <;>
    exact_mod_cast by omega

theorem rgbMin_le_rgbMax (r g b : ℕ) : rgbMin r g b ≤ rgbMax r g b :=
  le_trans (min_le_left _ _) (le_trans (min_le_left _ _)
    (le_trans (le_max_left _ _) (le_max_left _ _)))

theorem chan_le_rgbMax (r g b : ℕ) :
    (r : ℚ) / 255 ≤ rgbMax r g b ∧ (g : ℚ) / 255 ≤ rgbMax r g b ∧
      (b : ℚ) / 255 ≤ rgbMax r g b :=
  ⟨le_trans (le_max_left _ _) (le_max_left _ _),
   le_trans (le_max_right _ _) (le_max_left _ _), le_max_right _ _⟩

theorem rgbMin_le_chan (r g b : ℕ) :
    rgbMin r g b ≤ (r : ℚ) / 255 ∧ rgbMin r g b ≤ (g : ℚ) / 255 ∧
      rgbMin r g b ≤ (b : ℚ) / 255 :=
  ⟨le_trans (min_le_left _ _) (min_le_left _ _),
   le_trans (min_le_left _ _) (min_le_right _ _), min_le_right _ _⟩

theorem lightFrac_mem {r g b : ℕ} (hr : r ≤ 255) (hg : g ≤ 255) (hb : b ≤ 255) :
    0 ≤ lightFrac r g b ∧ lightFrac r g b ≤ 1 := by
  have h1 := rgbMin_nonneg r g b
  have h2 := rgbMax_le_one hr hg hb
  have h3 := rgbMin_le_rgbMax r g b
  rw [lightFrac]
  constructor <;> linarith

/-- In the chromatic case the two branch denominators of `hexToHsl`'s
saturation formula are positive. -/
theorem chromatic_denoms {r g b : ℕ} (hr : r ≤ 255) (hg : g ≤ 255) (hb : b ≤ 255)
    (hne : rgbMax r g b ≠ rgbMin r g b) :
    rgbMin r g b < rgbMax r g b ∧ 0 < rgbMax r g b + rgbMin r g b ∧
      0 < 2 - rgbMax r g b - rgbMin r g b := by
  have h1 := rgbMin_nonneg r g b
  have h2 := rgbMax_le_one hr hg hb
  have h3 := rgbMin_le_rgbMax r g b
  have hlt : rgbMin r g b < rgbMax r g b := lt_of_le_of_ne h3 (Ne.symm hne)
  refine ⟨hlt, by linarith, by linarith⟩

theorem satFrac_mem {r g b : ℕ} (hr : r ≤ 255) (hg : g ≤ 255) (hb : b ≤ 255) :
    0 ≤ satFrac r g b ∧ satFrac r g b ≤ 1 := by
  rw [satFrac]
  by_cases hne : rgbMax r g b = rgbMin r g b
  · rw [if_pos hne]
    norm_num
  · rw [if_neg hne]
    obtain ⟨hlt, hpos1, hpos2⟩ := chromatic_denoms hr hg hb hne
    have h2 := rgbMax_le_one hr hg hb
    have h1 := rgbMin_nonneg r g b
    by_cases hl : lightFrac r g b > 1/2
    · rw [if_pos hl]
      constructor
      · apply div_nonneg (by linarith) (by linarith)
      · rw [div_le_one hpos2]
        linarith
    · rw [if_neg hl]
      constructor
      · apply div_nonneg (by linarith) (by linarith)
      · rw [div_le_one hpos1]
        linarith

theorem hueFrac_eq_of_ne {r g b : ℕ} (hne : rgbMax r g b ≠ rgbMin r g b) :
    hueFrac r g b =
      (if rgbMax r g b = (r : ℚ) / 255 then
          ((g : ℚ) / 255 - (b : ℚ) / 255) / (rgbMax r g b - rgbMin r g b) +
            (if (g : ℚ) / 255 < (b : ℚ) / 255 then 6 else 0)
        else if rgbMax r g b = (g : ℚ) / 255 then
          ((b : ℚ) / 255 - (r : ℚ) / 255) / (rgbMax r g b - rgbMin r g b) + 2
        else ((r : ℚ) / 255 - (g : ℚ) / 255) / (rgbMax r g b - rgbMin r g b) + 4) / 6 := by
  rw [hueFrac, if_neg hne]

theorem hueFrac_mem {r g b : ℕ} (hr : r ≤ 255) (hg : g ≤ 255) (hb : b ≤ 255) :
    0 ≤ hueFrac r g b ∧ hueFrac r g b < 1 := by
  by_cases hne : rgbMax r g b = rgbMin r g b
  · rw [hueFrac, if_pos hne]
    norm_num
  · rw [hueFrac_eq_of_ne hne]
    obtain ⟨hlt, hpos1, hpos2⟩ := chromatic_denoms hr hg hb hne
    set rr := (r : ℚ) / 255 with hrr
    set gg := (g : ℚ) / 255 with hgg
    set bb := (b : ℚ) / 255 with hbb
    set mx := rgbMax r g b with hmx
    set mn := rgbMin r g b with hmn
    have hdpos : 0 < mx - mn := by linarith
    obtain ⟨hrx, hgx, hbx⟩ := chan_le_rgbMax r g b
    obtain ⟨hrn, hgn, hbn⟩ := rgbMin_le_chan r g b
    have habs : ∀ x y : ℚ, mn ≤ x → x ≤ mx → mn ≤ y → y ≤ mx →
        -1 ≤ (x - y) / (mx - mn) ∧ (x - y) / (mx - mn) ≤ 1 := by
      intro x y h1 h2 h3 h4
      constructor
      · rw [neg_le, ← neg_div, neg_sub, div_le_one hdpos]
        linarith
      · rw [div_le_one hdpos]
        linarith
    by_cases hcr : mx = rr
    · rw [if_pos hcr]
      obtain ⟨ha, hb'⟩ := habs gg bb hgn hgx hbn hbx
      by_cases hgb : gg < bb
      · rw [if_pos hgb]
        have hneg : (gg - bb) / (mx - mn) < 0 :=
          div_neg_of_neg_of_pos (by simp only [hgg, hbb] at hgb ⊢; linarith) hdpos
        constructor <;> linarith
      · rw [if_neg hgb]
        have hnn : 0 ≤ (gg - bb) / (mx - mn) :=
          div_nonneg (by simp only [hgg, hbb] at hgb ⊢; linarith [not_lt.mp hgb])
            (le_of_lt hdpos)
        constructor <;> linarith
    · rw [if_neg hcr]
      by_cases hcg : mx = gg
      · rw [if_pos hcg]
        obtain ⟨ha, hb'⟩ := habs bb rr hbn hbx hrn hrx
        constructor <;> linarith
      · rw [if_neg hcg]
        obtain ⟨ha, hb'⟩ := habs rr gg hrn hrx hgn hgx
        constructor <;> linarith

/-- Ranges of the rounded `hexToHsl` output on any byte triple: hue lands
in [0,360] (360 is attainable), saturation and lightness in [0,100]. -/
theorem rgbToHsl_ranges {r g b : ℕ} (hr : r ≤ 255) (hg : g ≤ 255) (hb : b ≤ 255) :
    0 ≤ (rgbToHsl r g b).1 ∧ (rgbToHsl r g b).1 ≤ 360 ∧
    0 ≤ (rgbToHsl r g b).2.1 ∧ (rgbToHsl r g b).2.1 ≤ 100 ∧
    0 ≤ (rgbToHsl r g b).2.2 ∧ (rgbToHsl r g b).2.2 ≤ 100 := by
  obtain ⟨hh0, hh1⟩ := hueFrac_mem hr hg hb
  obtain ⟨hs0, hs1⟩ := satFrac_mem hr hg hb
  obtain ⟨hl0, hl1⟩ := lightFrac_mem hr hg hb
  rw [rgbToHsl]
  refine ⟨le_jsRound (by push_cast; nlinarith), jsRound_le (by push_cast; nlinarith),
    le_jsRound (by push_cast; nlinarith), jsRound_le (by push_cast; nlinarith),
    le_jsRound (by push_cast; nlinarith), jsRound_le (by push_cast; nlinarith)⟩

theorem hexToHsl_ranges (s : String) :
    0 ≤ (hexToHsl s).1 ∧ (hexToHsl s).1 ≤ 360 ∧
    0 ≤ (hexToHsl s).2.1 ∧ (hexToHsl s).2.1 ≤ 100 ∧
    0 ≤ (hexToHsl s).2.2 ∧ (hexToHsl s).2.2 ≤ 100 := by
  obtain ⟨h1, h2, h3⟩ := hexToRgb_le_255 s
  exact rgbToHsl_ranges h1 h2 h3

/-! ### Luminance and contrast -/

theorem jsRoundR_le {x : ℝ} {c : ℤ} (h : x ≤ c) : jsRoundR x ≤ c := by
  have : x + 1/2 < (c : ℝ) + 1 := by linarith
  exact Int.le_of_lt_add_one (Int.floor_lt.mpr (by push_cast; linarith))

theorem le_jsRoundR {x : ℝ} {c : ℤ} (h : (c : ℝ) ≤ x) : c ≤ jsRoundR x :=
  Int.le_floor.mpr (by push_cast; linarith)

theorem jsRoundR_intCast (c : ℤ) : jsRoundR (c : ℝ) = c := by
  rw [jsRoundR, Int.floor_eq_iff]
  constructor
  · push_cast
    linarith
  · push_cast
    linarith

theorem chanLin_nonneg (c : ℕ) : 0 ≤ chanLin c := by
  rw [chanLin]
  by_cases h : ((c : ℝ) / 255) ≤ 0.03928
  · rw [if_pos h]
    positivity
  · rw [if_neg h]
    apply Real.rpow_nonneg
    positivity

theorem chanLin_le_one {c : ℕ} (hc : c ≤ 255) : chanLin c ≤ 1 := by
  have hv1 : (c : ℝ) / 255 ≤ 1 := by
    rw [div_le_one (by norm_num : (0:ℝ) < 255)]
    exact_mod_cast hc
  rw [chanLin]
  by_cases h : ((c : ℝ) / 255) ≤ 0.03928
  · rw [if_pos h]
    rw [div_le_one (by norm_num : (0:ℝ) < 12.92)]
    linarith
  · rw [if_neg h]
    have hv0 : 0 ≤ (c : ℝ) / 255 := by positivity
    have hbase1 : ((c : ℝ) / 255 + 0.055) / 1.055 ≤ 1 := by
      rw [div_le_one (by norm_num : (0:ℝ) < 1.055)]
      linarith
    exact Real.rpow_le_one (by positivity) hbase1 (by norm_num)

theorem getLuminance_mem {r g b : ℕ} (hr : r ≤ 255) (hg : g ≤ 255) (hb : b ≤ 255) :
    0 ≤ getLuminance r g b ∧ getLuminance r g b ≤ 1 := by
  have h1 := chanLin_nonneg r
  have h2 := chanLin_nonneg g
  have h3 := chanLin_nonneg b
  have h4 := chanLin_le_one hr
  have h5 := chanLin_le_one hg
  have h6 := chanLin_le_one hb
  rw [getLuminance]
  constructor <;> nlinarith

theorem lumOf_mem (s : String) : 0 ≤ lumOf s ∧ lumOf s ≤ 1 := by
  obtain ⟨h1, h2, h3⟩ := hexToRgb_le_255 s
  exact getLuminance_mem h1 h2 h3

theorem chanLin_zero : chanLin 0 = 0 := by
  rw [chanLin]
  rw [if_pos (by norm_num)]
  norm_num

theorem chanLin_255 : chanLin 255 = 1 := by
  rw [chanLin]
  rw [if_neg (by norm_num)]
  have hbase : (((255:ℕ) : ℝ) / 255 + 0.055) / 1.055 = 1 := by norm_num
  rw [hbase, Real.one_rpow]

theorem lumOf_black : lumOf "#000000" = 0 := by
  have h : hexToRgb "#000000" = (0, 0, 0) := by decide
  rw [lumOf, h, getLuminance, chanLin_zero]
  norm_num

theorem lumOf_white : lumOf "#ffffff" = 1 := by
  have h : hexToRgb "#ffffff" = (255, 255, 255) := by decide
  rw [lumOf, h, getLuminance, chanLin_255]
  norm_num

theorem getContrastRatioRaw_self (s : String) : getContrastRatioRaw s s = 1 := by
  have h := (lumOf_mem s).1
  rw [getContrastRatioRaw, max_self, min_self]
  exact div_self (by linarith)

theorem getContrastRatio_self (s : String) : getContrastRatio s s = 1 := by
  rw [getContrastRatio, getContrastRatioTimes10, getContrastRatioRaw_self]
  have h10 : jsRoundR ((1:ℝ) * 10) = 10 := by
    rw [show ((1:ℝ) * 10) = ((10 : ℤ) : ℝ) by norm_num, jsRoundR_intCast]
  rw [h10]
  norm_num

theorem getContrastRatioRaw_comm (s t : String) :
    getContrastRatioRaw s t = getContrastRatioRaw t s := by
  rw [getContrastRatioRaw, getContrastRatioRaw, max_comm, min_comm]

theorem getContrastRatio_comm (s t : String) :
    getContrastRatio s t = getContrastRatio t s := by
  rw [getContrastRatio, getContrastRatio, getContrastRatioTimes10,
    getContrastRatioTimes10, getContrastRatioRaw_comm]

theorem getContrastRatioRaw_blackwhite : getContrastRatioRaw "#000000" "#ffffff" = 21 := by
  rw [getContrastRatioRaw, lumOf_black, lumOf_white]
  rw [max_eq_right (by norm_num : (0:ℝ) ≤ 1), min_eq_left (by norm_num : (0:ℝ) ≤ 1)]
  norm_num

theorem getContrastRatio_blackwhite : getContrastRatio "#000000" "#ffffff" = 21 := by
  rw [getContrastRatio, getContrastRatioTimes10, getContrastRatioRaw_blackwhite]
  have h210 : ((21:ℝ) * 10) = ((210 : ℤ) : ℝ) := by norm_num
  rw [h210, jsRoundR_intCast]
  norm_num

theorem getContrastRatioRaw_mem (s t : String) :
    1 ≤ getContrastRatioRaw s t ∧ getContrastRatioRaw s t ≤ 21 := by
  obtain ⟨hs0, hs1⟩ := lumOf_mem s
  obtain ⟨ht0, ht1⟩ := lumOf_mem t
  have hmax0 : 0 ≤ max (lumOf s) (lumOf t) := le_max_of_le_left hs0
  have hmax1 : max (lumOf s) (lumOf t) ≤ 1 := max_le hs1 ht1
  have hmin0 : 0 ≤ min (lumOf s) (lumOf t) := le_min hs0 ht0
  have hminmax : min (lumOf s) (lumOf t) ≤ max (lumOf s) (lumOf t) := min_le_max
  have hdpos : 0 < min (lumOf s) (lumOf t) + 0.05 := by linarith
  rw [getContrastRatioRaw]
  constructor
  · rw [le_div_iff hdpos]
    linarith
  · rw [div_le_iff hdpos]
    linarith

theorem getContrastRatio_mem (s t : String) :
    1 ≤ getContrastRatio s t ∧ getContrastRatio s t ≤ 21 := by
  obtain ⟨h1, h2⟩ := getContrastRatioRaw_mem s t
  have hlo : (10 : ℤ) ≤ getContrastRatioTimes10 s t :=
    le_jsRoundR (by push_cast; linarith)
  have hhi : getContrastRatioTimes10 s t ≤ (210 : ℤ) :=
    jsRoundR_le (by push_cast; linarith)
  rw [getContrastRatio]
  constructor
  · rw [le_div_iff (by norm_num : (0:ℝ) < 10)]
    exact_mod_cast by exact_mod_cast hlo
  · rw [div_le_iff (by norm_num : (0:ℝ) < 10)]
    have : ((getContrastRatioTimes10 s t : ℝ)) ≤ 210 := by exact_mod_cast hhi
    linarith

/-! ### Claim theorems -/

/-- C4 counterexample: the claim restricts hexToHsl's hue to [0,360), but
on `#ff0001` the rounded hue is exactly 360 (the exact hue 359.76..
rounds up), so the interval is not respected as stated. -/
theorem C4_counterexample_hue_360 :
    (hexToHsl "#ff0001").1 = 360 ∧ ¬ (hexToHsl "#ff0001").1 < 360 := by
  with_unfolding_all decide

/-- C4 (amended): for every valid hex color, hexToHsl returns integers
with hue in [0,360] (360 itself is attainable when the exact hue rounds
up to a full turn), saturation in [0,100] and lightness in [0,100], each
obtained by rounding the exact fraction to the nearest integer, not by
truncation. -/
theorem C4_hexToHsl_ranges (H : String) (hval : validHex H = true) :
    (0 ≤ (hexToHsl H).1 ∧ (hexToHsl H).1 ≤ 360 ∧
     0 ≤ (hexToHsl H).2.1 ∧ (hexToHsl H).2.1 ≤ 100 ∧
     0 ≤ (hexToHsl H).2.2 ∧ (hexToHsl H).2.2 ≤ 100) ∧
    hexToHsl H =
      (jsRound (hueFrac (hexToRgb H).1 (hexToRgb H).2.1 (hexToRgb H).2.2 * 360),
       jsRound (satFrac (hexToRgb H).1 (hexToRgb H).2.1 (hexToRgb H).2.2 * 100),
       jsRound (lightFrac (hexToRgb H).1 (hexToRgb H).2.1 (hexToRgb H).2.2 * 100)) :=
  ⟨hexToHsl_ranges H, rfl⟩

/-- C4 witness: the amended range theorem applied at `#5468ff`. -/
theorem C4_witness :
    validHex "#5468ff" = true ∧
      (0 ≤ (hexToHsl "#5468ff").1 ∧ (hexToHsl "#5468ff").1 ≤ 360 ∧
       0 ≤ (hexToHsl "#5468ff").2.1 ∧ (hexToHsl "#5468ff").2.1 ≤ 100 ∧
       0 ≤ (hexToHsl "#5468ff").2.2 ∧ (hexToHsl "#5468ff").2.2 ≤ 100) :=
  ⟨by decide, (C4_hexToHsl_ranges "#5468ff" (by decide)).1⟩

/-- C5: for every pair of base colors, generatePalette returns exactly six
entries named Primary, Primary-L, Primary-D, Secondary, Secondary-L,
Neutral in that order, the Primary entry's hex is the primary input
unchanged, the Secondary entry's hex is the secondary input unchanged,
and no Secondary-D entry exists. -/
theorem C5_generatePalette_shape (p s : String) :
    (generatePalette p s).length = 6 ∧
    (generatePalette p s).map PaletteEntry.name =
      ["Primary", "Primary-L", "Primary-D", "Secondary", "Secondary-L", "Neutral"] ∧
    ((generatePalette p s).map PaletteEntry.hex).head? = some p ∧
    ((generatePalette p s).map PaletteEntry.hex)[3]? = some s ∧
    "Secondary-D" ∉ (generatePalette p s).map PaletteEntry.name := by
  refine ⟨rfl, rfl, rfl, rfl, ?_⟩
  simp only [generatePalette, List.map_cons, List.map_nil]
  decide

/-- C6: the contrast ratio of black on white is exactly 21.0, and the
contrast ratio of any valid color with itself is exactly 1.0. -/
theorem C6_contrast_extremes :
    getContrastRatio "#000000" "#ffffff" = 21 ∧
      ∀ X : String, validHex X = true → getContrastRatio X X = 1 :=
  ⟨getContrastRatio_blackwhite, fun X _ => getContrastRatio_self X⟩

/-- C6 witness: the self-contrast part applied at `#5468ff`. -/
theorem C6_witness :
    validHex "#5468ff" = true ∧ getContrastRatio "#5468ff" "#5468ff" = 1 :=
  ⟨by decide, C6_contrast_extremes.2 "#5468ff" (by decide)⟩

/-- C7: the contrast ratio is symmetric in its two arguments. -/
theorem C7_contrast_symm (A B : String) (hA : validHex A = true)
    (hB : validHex B = true) : getContrastRatio A B = getContrastRatio B A :=
  getContrastRatio_comm A B

/-- C7 witness: symmetry applied at the default mood pair. -/
theorem C7_witness :
    validHex "#5468ff" = true ∧ validHex "#bfe0ff" = true ∧
      getContrastRatio "#5468ff" "#bfe0ff" = getContrastRatio "#bfe0ff" "#5468ff" :=
  ⟨by decide, by decide, C7_contrast_symm "#5468ff" "#bfe0ff" (by decide) (by decide)⟩

/-- C10: for every pair of valid hex colors the rounded contrast ratio
lies in the closed interval [1, 21]. -/
theorem C10_contrast_bounds (A B : String) (hA : validHex A = true)
    (hB : validHex B = true) :
    1 ≤ getContrastRatio A B ∧ getContrastRatio A B ≤ 21 :=
  getContrastRatio_mem A B

/-- C10 witness: the bounds applied at the default mood pair. -/
theorem C10_witness :
    validHex "#5468ff" = true ∧ validHex "#bfe0ff" = true ∧
      (1 ≤ getContrastRatio "#5468ff" "#bfe0ff" ∧
        getContrastRatio "#5468ff" "#bfe0ff" ≤ 21) :=
  ⟨by decide, by decide, C10_contrast_bounds "#5468ff" "#bfe0ff" (by decide) (by decide)⟩

/-- C8 counterexample: JS bracket lookup and the `in` operator walk the
prototype chain, so `applyMood "toString"` finds the inherited (truthy)
`Object.prototype.toString` and keeps the requested key: a key outside
the five catalog keys that does not resolve to the calm preset. -/
theorem C8_counterexample_toString :
    applyMood "toString" = ("toString", JsProp.protoMember "toString") ∧
    ("toString" ≠ "calm" ∧ "toString" ≠ "noir" ∧ "toString" ≠ "bloom" ∧
     "toString" ≠ "solar" ∧ "toString" ≠ "fresh") ∧
    (applyMood "toString").2 ≠ JsProp.preset calmPreset ∧
    (applyMood "toString").1 ≠ "calm" := by decide

/-- C8 (amended): each of the five catalog keys resolves to that key's
own preset, and every key that is neither a catalog key nor a property
name inherited from `Object.prototype` resolves to the calm default
preset (primary #5468ff, secondary #bfe0ff); an inherited name such as
`toString` instead finds the prototype member and keeps the requested
key, so it is not resolved to calm. -/
theorem C8_applyMood_fallback :
    (∀ key : String, key ≠ "calm" → key ≠ "noir" → key ≠ "bloom" →
      key ≠ "solar" → key ≠ "fresh" → key ∉ objectPrototypeKeys →
      applyMood key = ("calm", JsProp.preset calmPreset)) ∧
    calmPreset.primary = "#5468ff" ∧ calmPreset.secondary = "#bfe0ff" ∧
    applyMood "calm" = ("calm", JsProp.preset calmPreset) ∧
    applyMood "noir" =
      ("noir", JsProp.preset ⟨"Night Grid", "â—¼ï¸\u008F", "#0b1116", "#f5eddc"⟩) ∧
    applyMood "bloom" =
      ("bloom", JsProp.preset ⟨"Bloom Pop", "âœ¿", "#f2547d", "#ffd9e8"⟩) ∧
    applyMood "solar" =
      ("solar", JsProp.preset ⟨"Solar Flash", "âš¡", "#ff6b00", "#ffe4a0"⟩) ∧
    applyMood "fresh" =
      ("fresh", JsProp.preset ⟨"Fresh Cut", "âœ³ï¸\u008F", "#1fbf8f", "#d9ffe5"⟩) ∧
    (∀ key : String, key ∈ objectPrototypeKeys →
      applyMood key = (key, JsProp.protoMember key)) := by
  refine ⟨?_, rfl, rfl, by decide, by decide, by decide, by decide, by decide, ?_⟩
  · intro key h1 h2 h3 h4 h5 h6
    have hown : moodPalettes key = none := by
      rw [moodPalettes, if_neg h1, if_neg h2, if_neg h3, if_neg h4, if_neg h5]
    have hget : moodPalettesGet key = JsProp.undef := by
      rw [moodPalettesGet, hown]
      exact if_neg h6
    have hhas : moodPalettesHas key = false := by
      rw [moodPalettesHas, hown, decide_eq_false h6]
      rfl
    rw [applyMood, hget, hhas]
    simp [jsTruthy, moodPalettesGet, moodPalettes, DEFAULT_MOOD]
  · intro key hk
    fin_cases hk <;> decide

/-- C8 witness: the amended fallback branch applied at a key that is
neither a catalog key nor an inherited property name. -/
theorem C8_witness :
    ("not-a-real-key" ≠ "calm" ∧ "not-a-real-key" ≠ "noir" ∧
     "not-a-real-key" ≠ "bloom" ∧ "not-a-real-key" ≠ "solar" ∧
     "not-a-real-key" ≠ "fresh" ∧ "not-a-real-key" ∉ objectPrototypeKeys) ∧
      applyMood "not-a-real-key" = ("calm", JsProp.preset calmPreset) :=
  ⟨⟨by decide, by decide, by decide, by decide, by decide, by decide⟩,
    C8_applyMood_fallback.1 "not-a-real-key" (by decide) (by decide) (by decide)
      (by decide) (by decide) (by decide)⟩

/-- C3 counterexample: the claim says any primary input that is not a
7-character lowercase hex string halts recomputation, but the code
lowercases first: uppercase `#ABCDEF` is not of the lowercase shape, yet
the palette is still produced. -/
theorem C3_counterexample_uppercase :
    validHex "#ABCDEF" = false ∧ (updateUI "#ABCDEF" "#abcdef").paletteDisplay ≠ none := by
  constructor
  · decide
  · have hcond : (validHex (jsToLower "#ABCDEF") && validHex (jsToLower "#abcdef")) = true := by
      decide
    simp only [updateUI, hcond, if_true]
    simp

/-- C3 (amended): recomputation is keyed to the lowercased inputs: if
either input, after toLowerCase, fails the `#[0-9a-f]{6}` shape, updateUI
halts with the cleared display and the waiting message; when both
lowercased inputs match, the palette is produced. -/
theorem C3_updateUI_halt (p s : String) :
    (¬ (validHex (jsToLower p) = true ∧ validHex (jsToLower s) = true) →
      updateUI p s = ⟨"Waiting for valid hex.", none⟩) ∧
    (validHex (jsToLower p) = true → validHex (jsToLower s) = true →
      (updateUI p s).paletteDisplay =
        some (generatePalette (jsToLower p) (jsToLower s))) := by
  constructor
  · intro h
    have hcond : (validHex (jsToLower p) && validHex (jsToLower s)) = false := by
      by_cases hp : validHex (jsToLower p) = true
      · by_cases hs : validHex (jsToLower s) = true
        · exact absurd ⟨hp, hs⟩ h
        · simp only [Bool.not_eq_true] at hs
          simp [hs]
      · simp only [Bool.not_eq_true] at hp
        simp [hp]
    simp only [updateUI, hcond]
    simp
  · intro hp hs
    have hcond : (validHex (jsToLower p) && validHex (jsToLower s)) = true := by
      simp [hp, hs]
    simp only [updateUI, hcond, if_true]

/-- C3 witness: the halting branch applied at an invalid primary input. -/
theorem C3_witness :
    ¬ (validHex (jsToLower "#zzzzzz") = true ∧ validHex (jsToLower "#bfe0ff") = true) ∧
      updateUI "#zzzzzz" "#bfe0ff" = ⟨"Waiting for valid hex.", none⟩ :=
  ⟨by decide, (C3_updateUI_halt "#zzzzzz" "#bfe0ff").1 (by decide)⟩

/-- C9: for every hue and every saturation and lightness in [0,100],
hslToHex returns a 7-character string of the shape `#` followed by six
lowercase hex digits (every channel byte lies in [0,255] and is printed
as two zero-padded lowercase hex digits). -/
theorem C9_hslToHex_shape (h s l : ℚ) (hs0 : 0 ≤ s) (hs1 : s ≤ 100) (hl0 : 0 ≤ l)
    (hl1 : l ≤ 100) : validHex (hslToHex h s l) = true :=
  validHex_hslToHex hs0 hs1 hl0 hl1

/-- C9 witness: the shape theorem applied at hue 210, s 50, l 60. -/
theorem C9_witness :
    ((0:ℚ) ≤ 50 ∧ (50:ℚ) ≤ 100 ∧ (0:ℚ) ≤ 60 ∧ (60:ℚ) ≤ 100) ∧
      validHex (hslToHex 210 50 60) = true :=
  ⟨by norm_num,
    C9_hslToHex_shape 210 50 60 (by norm_num) (by norm_num) (by norm_num) (by norm_num)⟩

/-! ### Exact inversion: `hslToHex` undoes the exact (unrounded) HSL -/

theorem mul255_div (n : ℕ) : (255 : ℚ) * ((n : ℚ) / 255) = n := by
  field_simp

theorem lightFrac_def (r g b : ℕ) :
    lightFrac r g b = (rgbMax r g b + rgbMin r g b) / 2 := rfl

/-- In the chromatic case, the amplitude `a` of `hslToHex`, evaluated at
the exact saturation/lightness percentages, is half the channel spread. -/
theorem satMinTerm_chromatic {r g b : ℕ} (hr : r ≤ 255) (hg : g ≤ 255) (hb : b ≤ 255)
    (hne : rgbMax r g b ≠ rgbMin r g b) :
    satMinTerm (satFrac r g b * 100) (lightFrac r g b * 100) =
      (rgbMax r g b - rgbMin r g b) / 2 := by
  obtain ⟨hlt, hpos1, hpos2⟩ := chromatic_denoms hr hg hb hne
  have h1 := rgbMin_nonneg r g b
  have h2 := rgbMax_le_one hr hg hb
  have hl : lightFrac r g b = (rgbMax r g b + rgbMin r g b) / 2 := rfl
  have hl100 : lightFrac r g b * 100 / 100 = lightFrac r g b := by ring
  rw [satMinTerm, hl100, satFrac]
  rw [if_neg hne]
  by_cases hcase : lightFrac r g b > 1/2
  · rw [if_pos hcase]
    have hmin : min (lightFrac r g b) (1 - lightFrac r g b) = 1 - lightFrac r g b :=
      min_eq_right (by linarith)
    rw [hmin]
    have hden : 2 - rgbMax r g b - rgbMin r g b = 2 * (1 - lightFrac r g b) := by
      rw [hl]; ring
    have hne1 : (1 : ℚ) - lightFrac r g b ≠ 0 := by
      rw [hl]; intro hzero
      have : rgbMax r g b + rgbMin r g b = 2 := by linarith [hzero]
      linarith
    rw [hden]
    field_simp
    ring
  · rw [if_neg hcase]
    have hmin : min (lightFrac r g b) (1 - lightFrac r g b) = lightFrac r g b :=
      min_eq_left (by linarith [not_lt.mp hcase])
    rw [hmin]
    have hden : rgbMax r g b + rgbMin r g b = 2 * lightFrac r g b := by
      rw [hl]; ring
    have hne1 : lightFrac r g b ≠ 0 := by
      rw [hl]; intro hzero
      have hx : rgbMax r g b + rgbMin r g b = 0 := by linarith [hzero]
      linarith
    rw [hden]
    field_simp
    ring

/-- The channel values of `hslToHex`, fed the exact HSL of a byte triple,
in the chromatic case: base lightness minus half-spread times the wave. -/
theorem chanColor_exact_form {r g b : ℕ} (hr : r ≤ 255) (hg : g ≤ 255) (hb : b ≤ 255)
    (hne : rgbMax r g b ≠ rgbMin r g b) (n : ℕ) :
    chanColor (hueFrac r g b * 360) (satFrac r g b * 100) (lightFrac r g b * 100) n =
      lightFrac r g b - (rgbMax r g b - rgbMin r g b) / 2 *
        mClamp (jsMod ((n : ℚ) + 12 * hueFrac r g b) 12) := by
  rw [chanColor_eq, satMinTerm_chromatic hr hg hb hne]
  have h100 : lightFrac r g b * 100 / 100 = lightFrac r g b := by ring
  have harg : chanK (hueFrac r g b * 360) n = jsMod ((n : ℚ) + 12 * hueFrac r g b) 12 := by
    rw [chanK]
    congr 1
    ring
  rw [h100, harg]

theorem rgbMax_eq_or (r g b : ℕ) :
    rgbMax r g b = (r : ℚ) / 255 ∨ rgbMax r g b = (g : ℚ) / 255 ∨
      rgbMax r g b = (b : ℚ) / 255 := by
  rw [rgbMax]
  rcases max_choice (max ((r : ℚ) / 255) ((g : ℚ) / 255)) ((b : ℚ) / 255) with h | h
  · rcases max_choice ((r : ℚ) / 255) ((g : ℚ) / 255) with h2 | h2
    · left
      rw [h, h2]
    · right
      left
      rw [h, h2]
  · right
    right
    exact h

set_option maxHeartbeats 1600000 in
/-- Exact inversion: feeding `hslToHex`'s channel formula the exact
(unrounded) hue degrees and saturation/lightness percentages of a byte
triple reproduces each byte exactly. -/
theorem chanColor_inversion {r g b : ℕ} (hr : r ≤ 255) (hg : g ≤ 255) (hb : b ≤ 255) :
    255 * chanColor (hueFrac r g b * 360) (satFrac r g b * 100)
        (lightFrac r g b * 100) 0 = r ∧
    255 * chanColor (hueFrac r g b * 360) (satFrac r g b * 100)
        (lightFrac r g b * 100) 8 = g ∧
    255 * chanColor (hueFrac r g b * 360) (satFrac r g b * 100)
        (lightFrac r g b * 100) 4 = b := by
  by_cases hne : rgbMax r g b = rgbMin r g b
  · -- achromatic: every channel equals the (equal) max and min
    obtain ⟨hrx, hgx, hbx⟩ := chan_le_rgbMax r g b
    obtain ⟨hrn, hgn, hbn⟩ := rgbMin_le_chan r g b
    have hreq : (r : ℚ) / 255 = rgbMax r g b := le_antisymm hrx (hne ▸ hrn)
    have hgeq : (g : ℚ) / 255 = rgbMax r g b := le_antisymm hgx (hne ▸ hgn)
    have hbeq : (b : ℚ) / 255 = rgbMax r g b := le_antisymm hbx (hne ▸ hbn)
    have hs0 : satFrac r g b = 0 := by rw [satFrac, if_pos hne]
    have hsmt : satMinTerm (satFrac r g b * 100) (lightFrac r g b * 100) = 0 := by
      rw [hs0, satMinTerm]
      ring
    have hlf : lightFrac r g b = (r : ℚ) / 255 := by
      rw [lightFrac_def, hreq, ← hne]
      ring
    have hcc : ∀ n : ℕ, chanColor (hueFrac r g b * 360) (satFrac r g b * 100)
        (lightFrac r g b * 100) n = lightFrac r g b := by
      intro n
      rw [chanColor_eq, hsmt]
      ring
    refine ⟨?_, ?_, ?_⟩ <;> rw [hcc]
    · rw [hlf, mul255_div]
    · rw [hlf, hreq, ← hgeq, mul255_div]
    · rw [hlf, hreq, ← hbeq, mul255_div]
  · -- chromatic
    obtain ⟨hlt, hpos1, hpos2⟩ := chromatic_denoms hr hg hb hne
    have hform := chanColor_exact_form hr hg hb hne
    have hd : 0 < rgbMax r g b - rgbMin r g b := by linarith
    have hdne : rgbMax r g b - rgbMin r g b ≠ 0 := ne_of_gt hd
    obtain ⟨hrx, hgx, hbx⟩ := chan_le_rgbMax r g b
    obtain ⟨hrn, hgn, hbn⟩ := rgbMin_le_chan r g b
    have hlf := lightFrac_def r g b
    by_cases hcr : rgbMax r g b = (r : ℚ) / 255
    · -- the red channel is the maximum
      have hggle : (g : ℚ) / 255 ≤ (r : ℚ) / 255 := hcr ▸ hgx
      have hbble : (b : ℚ) / 255 ≤ (r : ℚ) / 255 := hcr ▸ hbx
      by_cases hgb : (g : ℚ) / 255 < (b : ℚ) / 255
      · -- case B: hue sector (5,6)
        have hmn : rgbMin r g b = (g : ℚ) / 255 := by
          rw [rgbMin, min_eq_right hggle, min_eq_left (le_of_lt hgb)]
        set x := ((g : ℚ) / 255 - (b : ℚ) / 255) / (rgbMax r g b - rgbMin r g b)
          with hxdef
        have hx0 : -1 ≤ x := by
          rw [hxdef, neg_le, ← neg_div, neg_sub, div_le_one hd]
          linarith [hmn ▸ hgn, hcr ▸ hbx]
        have hx1 : x < 0 := div_neg_of_neg_of_pos (by linarith) hd
        have hhf : hueFrac r g b = (x + 6) / 6 := by
          rw [hueFrac_eq_of_ne hne, if_pos hcr, if_pos hgb]
        have hk0 : 12 * hueFrac r g b = 2 * x + 12 := by rw [hhf]; ring
        have hdne' : (r : ℚ) / 255 - (g : ℚ) / 255 ≠ 0 := by
          rw [hcr, hmn] at hdne
          exact hdne
        refine ⟨?_, ?_, ?_⟩
        · rw [hform 0]
          have harg : ((0 : ℕ) : ℚ) + 12 * hueFrac r g b = 2 * x + 12 := by
            push_cast
            rw [hk0]
            ring
          rw [harg, jsMod_of_nonneg_lt (by linarith) (by linarith),
            mClamp_of_ge_ten (by linarith)]
          have hval : (255 : ℚ) * (lightFrac r g b -
              (rgbMax r g b - rgbMin r g b) / 2 * (-1)) = 255 * rgbMax r g b := by
            rw [hlf]
            ring
          rw [hval, hcr, mul255_div]
        · rw [hform 8]
          have harg : ((8 : ℕ) : ℚ) + 12 * hueFrac r g b = 2 * x + 20 := by
            push_cast
            rw [hk0]
            ring
          rw [harg, jsMod_of_ge (by linarith) (by linarith)]
          have hk : 2 * x + 20 - 12 = 2 * x + 8 := by ring
          rw [hk, mClamp_of_mem_four_eight (by linarith) (by linarith)]
          have hval : (255 : ℚ) * (lightFrac r g b -
              (rgbMax r g b - rgbMin r g b) / 2 * 1) = 255 * rgbMin r g b := by
            rw [hlf]
            ring
          rw [hval, hmn, mul255_div]
        · rw [hform 4]
          have harg : ((4 : ℕ) : ℚ) + 12 * hueFrac r g b = 2 * x + 16 := by
            push_cast
            rw [hk0]
            ring
          rw [harg, jsMod_of_ge (by linarith) (by linarith)]
          have hk : 2 * x + 16 - 12 = 2 * x + 4 := by ring
          rw [hk, mClamp_of_mem_two_four (by linarith) (by linarith)]
          have hrg : (r : ℚ) - (g : ℚ) ≠ 0 := fun h0 =>
            hdne' (by rw [div_sub_div_same, h0, zero_div])
          have hval : lightFrac r g b -
              (rgbMax r g b - rgbMin r g b) / 2 * (2 * x + 4 - 3) = (b : ℚ) / 255 := by
            rw [hlf, hxdef, hcr, hmn]
            field_simp [hrg]
            ring
          rw [hval, mul255_div]
      · -- case A: hue sector [0,1]
        have hbbg : (b : ℚ) / 255 ≤ (g : ℚ) / 255 := not_lt.mp hgb
        have hmn : rgbMin r g b = (b : ℚ) / 255 := by
          rw [rgbMin, min_eq_right hggle, min_eq_right hbbg]
        set x := ((g : ℚ) / 255 - (b : ℚ) / 255) / (rgbMax r g b - rgbMin r g b)
          with hxdef
        have hx0 : 0 ≤ x := div_nonneg (by linarith) (le_of_lt hd)
        have hx1 : x ≤ 1 := by
          rw [hxdef, div_le_one hd]
          linarith [hcr ▸ hgx, hmn ▸ hbn]
        have hhf : hueFrac r g b = (x + 0) / 6 := by
          rw [hueFrac_eq_of_ne hne, if_pos hcr, if_neg hgb]
        have hk0 : 12 * hueFrac r g b = 2 * x := by rw [hhf]; ring
        have hdne' : (r : ℚ) / 255 - (b : ℚ) / 255 ≠ 0 := by
          rw [hcr, hmn] at hdne
          exact hdne
        refine ⟨?_, ?_, ?_⟩
        · rw [hform 0]
          have harg : ((0 : ℕ) : ℚ) + 12 * hueFrac r g b = 2 * x := by
            push_cast
            rw [hk0]
            ring
          rw [harg, jsMod_of_nonneg_lt (by linarith) (by linarith),
            mClamp_of_le_two (by linarith)]
          have hval : (255 : ℚ) * (lightFrac r g b -
              (rgbMax r g b - rgbMin r g b) / 2 * (-1)) = 255 * rgbMax r g b := by
            rw [hlf]
            ring
          rw [hval, hcr, mul255_div]
        · rw [hform 8]
          have harg : ((8 : ℕ) : ℚ) + 12 * hueFrac r g b = 2 * x + 8 := by
            push_cast
            rw [hk0]
            ring
          rw [harg, jsMod_of_nonneg_lt (by linarith) (by linarith),
            mClamp_of_mem_eight_ten (by linarith) (by linarith)]
          have hrb : (r : ℚ) - (b : ℚ) ≠ 0 := fun h0 =>
            hdne' (by rw [div_sub_div_same, h0, zero_div])
          have hval : lightFrac r g b -
              (rgbMax r g b - rgbMin r g b) / 2 * (9 - (2 * x + 8)) = (g : ℚ) / 255 := by
            rw [hlf, hxdef, hcr, hmn]
            field_simp [hrb]
            ring
          rw [hval, mul255_div]
        · rw [hform 4]
          have harg : ((4 : ℕ) : ℚ) + 12 * hueFrac r g b = 2 * x + 4 := by
            push_cast
            rw [hk0]
            ring
          rw [harg, jsMod_of_nonneg_lt (by linarith) (by linarith),
            mClamp_of_mem_four_eight (by linarith) (by linarith)]
          have hval : (255 : ℚ) * (lightFrac r g b -
              (rgbMax r g b - rgbMin r g b) / 2 * 1) = 255 * rgbMin r g b := by
            rw [hlf]
            ring
          rw [hval, hmn, mul255_div]
    · by_cases hcg : rgbMax r g b = (g : ℚ) / 255
      · -- the green channel is the maximum
        have hrrle : (r : ℚ) / 255 ≤ (g : ℚ) / 255 := hcg ▸ hrx
        have hbble : (b : ℚ) / 255 ≤ (g : ℚ) / 255 := hcg ▸ hbx
        have hhf0 : hueFrac r g b =
            (((b : ℚ) / 255 - (r : ℚ) / 255) / (rgbMax r g b - rgbMin r g b) + 2) / 6 := by
          rw [hueFrac_eq_of_ne hne, if_neg hcr, if_pos hcg]
        set y := ((b : ℚ) / 255 - (r : ℚ) / 255) / (rgbMax r g b - rgbMin r g b)
          with hydef
        have hk0 : 12 * hueFrac r g b = 2 * y + 4 := by rw [hhf0]; ring
        rcases le_total ((r : ℚ) / 255) ((b : ℚ) / 255) with hrb | hbr
        · -- case C1: hue sector [2,3]
          have hmn : rgbMin r g b = (r : ℚ) / 255 := by
            rw [rgbMin, min_eq_left hrrle, min_eq_left hrb]
          have hy0 : 0 ≤ y := div_nonneg (by linarith) (le_of_lt hd)
          have hy1 : y ≤ 1 := by
            rw [hydef, div_le_one hd]
            linarith [hcg ▸ hbx, hmn ▸ hrn]
          have hgr : (g : ℚ) - (r : ℚ) ≠ 0 := by
            rw [hcg, hmn] at hdne
            exact fun h0 => hdne (by rw [div_sub_div_same, h0, zero_div])
          refine ⟨?_, ?_, ?_⟩
          · rw [hform 0]
            have harg : ((0 : ℕ) : ℚ) + 12 * hueFrac r g b = 2 * y + 4 := by
              push_cast
              rw [hk0]
              ring
            rw [harg, jsMod_of_nonneg_lt (by linarith) (by linarith),
              mClamp_of_mem_four_eight (by linarith) (by linarith)]
            have hval : (255 : ℚ) * (lightFrac r g b -
                (rgbMax r g b - rgbMin r g b) / 2 * 1) = 255 * rgbMin r g b := by
              rw [hlf]
              ring
            rw [hval, hmn, mul255_div]
          · rw [hform 8]
            have harg : ((8 : ℕ) : ℚ) + 12 * hueFrac r g b = 2 * y + 12 := by
              push_cast
              rw [hk0]
              ring
            rw [harg, jsMod_of_ge (by linarith) (by linarith)]
            have hk : 2 * y + 12 - 12 = 2 * y := by ring
            rw [hk, mClamp_of_le_two (by linarith)]
            have hval : (255 : ℚ) * (lightFrac r g b -
                (rgbMax r g b - rgbMin r g b) / 2 * (-1)) = 255 * rgbMax r g b := by
              rw [hlf]
              ring
            rw [hval, hcg, mul255_div]
          · rw [hform 4]
            have harg : ((4 : ℕ) : ℚ) + 12 * hueFrac r g b = 2 * y + 8 := by
              push_cast
              rw [hk0]
              ring
            rw [harg, jsMod_of_nonneg_lt (by linarith) (by linarith),
              mClamp_of_mem_eight_ten (by linarith) (by linarith)]
            have hval : lightFrac r g b -
                (rgbMax r g b - rgbMin r g b) / 2 * (9 - (2 * y + 8)) = (b : ℚ) / 255 := by
              rw [hlf, hydef, hcg, hmn]
              field_simp [hgr]
              ring
            rw [hval, mul255_div]
        · -- case C2: hue sector [1,2]
          have hmn : rgbMin r g b = (b : ℚ) / 255 := by
            rw [rgbMin, min_eq_left hrrle, min_eq_right hbr]
          have hy1 : y ≤ 0 := div_nonpos_of_nonpos_of_nonneg (by linarith) (le_of_lt hd)
          have hy0 : -1 ≤ y := by
            rw [hydef, neg_le, ← neg_div, neg_sub, div_le_one hd]
            linarith [hcg ▸ hrx, hmn ▸ hbn]
          have hgb0 : (g : ℚ) - (b : ℚ) ≠ 0 := by
            rw [hcg, hmn] at hdne
            exact fun h0 => hdne (by rw [div_sub_div_same, h0, zero_div])
          refine ⟨?_, ?_, ?_⟩
          · rw [hform 0]
            have harg : ((0 : ℕ) : ℚ) + 12 * hueFrac r g b = 2 * y + 4 := by
              push_cast
              rw [hk0]
              ring
            rw [harg, jsMod_of_nonneg_lt (by linarith) (by linarith),
              mClamp_of_mem_two_four (by linarith) (by linarith)]
            have hval : lightFrac r g b -
                (rgbMax r g b - rgbMin r g b) / 2 * (2 * y + 4 - 3) = (r : ℚ) / 255 := by
              rw [hlf, hydef, hcg, hmn]
              field_simp [hgb0]
              ring
            rw [hval, mul255_div]
          · rw [hform 8]
            have harg : ((8 : ℕ) : ℚ) + 12 * hueFrac r g b = 2 * y + 12 := by
              push_cast
              rw [hk0]
              ring
            rw [harg]
            have hm1 : mClamp (jsMod (2 * y + 12) 12) = -1 := by
              by_cases h12 : 2 * y + 12 < 12
              · rw [jsMod_of_nonneg_lt (by linarith) h12]
                exact mClamp_of_ge_ten (by linarith)
              · have hy00 : y = 0 := by linarith [not_lt.mp h12]
                rw [hy00]
                norm_num
                rw [jsMod_of_ge (by norm_num) (by norm_num)]
                exact mClamp_of_le_two (by norm_num)
            rw [hm1]
            have hval : (255 : ℚ) * (lightFrac r g b -
                (rgbMax r g b - rgbMin r g b) / 2 * (-1)) = 255 * rgbMax r g b := by
              rw [hlf]
              ring
            rw [hval, hcg, mul255_div]
          · rw [hform 4]
            have harg : ((4 : ℕ) : ℚ) + 12 * hueFrac r g b = 2 * y + 8 := by
              push_cast
              rw [hk0]
              ring
            rw [harg, jsMod_of_nonneg_lt (by linarith) (by linarith),
              mClamp_of_mem_four_eight (by linarith) (by linarith)]
            have hval : (255 : ℚ) * (lightFrac r g b -
                (rgbMax r g b - rgbMin r g b) / 2 * 1) = 255 * rgbMin r g b := by
              rw [hlf]
              ring
            rw [hval, hmn, mul255_div]
      · -- the blue channel is the maximum
        have hcb : rgbMax r g b = (b : ℚ) / 255 := by
          rcases rgbMax_eq_or r g b with h | h | h
          · exact absurd h hcr
          · exact absurd h hcg
          · exact h
        have hrrle : (r : ℚ) / 255 ≤ (b : ℚ) / 255 := hcb ▸ hrx
        have hggle : (g : ℚ) / 255 ≤ (b : ℚ) / 255 := hcb ▸ hgx
        have hhf0 : hueFrac r g b =
            (((r : ℚ) / 255 - (g : ℚ) / 255) / (rgbMax r g b - rgbMin r g b) + 4) / 6 := by
          rw [hueFrac_eq_of_ne hne, if_neg hcr, if_neg hcg]
        set z := ((r : ℚ) / 255 - (g : ℚ) / 255) / (rgbMax r g b - rgbMin r g b)
          with hzdef
        have hk0 : 12 * hueFrac r g b = 2 * z + 8 := by rw [hhf0]; ring
        rcases le_total ((g : ℚ) / 255) ((r : ℚ) / 255) with hgr | hrg
        · -- case D1: hue sector [4,5]
          have hmn : rgbMin r g b = (g : ℚ) / 255 := by
            rw [rgbMin, min_eq_right hgr, min_eq_left hggle]
          have hz0 : 0 ≤ z := div_nonneg (by linarith) (le_of_lt hd)
          have hz1 : z ≤ 1 := by
            rw [hzdef, div_le_one hd]
            linarith [hcb ▸ hrx, hmn ▸ hgn]
          have hbg : (b : ℚ) - (g : ℚ) ≠ 0 := by
            rw [hcb, hmn] at hdne
            exact fun h0 => hdne (by rw [div_sub_div_same, h0, zero_div])
          refine ⟨?_, ?_, ?_⟩
          · rw [hform 0]
            have harg : ((0 : ℕ) : ℚ) + 12 * hueFrac r g b = 2 * z + 8 := by
              push_cast
              rw [hk0]
              ring
            rw [harg, jsMod_of_nonneg_lt (by linarith) (by linarith),
              mClamp_of_mem_eight_ten (by linarith) (by linarith)]
            have hval : lightFrac r g b -
                (rgbMax r g b - rgbMin r g b) / 2 * (9 - (2 * z + 8)) = (r : ℚ) / 255 := by
              rw [hlf, hzdef, hcb, hmn]
              field_simp [hbg]
              ring
            rw [hval, mul255_div]
          · rw [hform 8]
            have harg : ((8 : ℕ) : ℚ) + 12 * hueFrac r g b = 2 * z + 16 := by
              push_cast
              rw [hk0]
              ring
            rw [harg, jsMod_of_ge (by linarith) (by linarith)]
            have hk : 2 * z + 16 - 12 = 2 * z + 4 := by ring
            rw [hk, mClamp_of_mem_four_eight (by linarith) (by linarith)]
            have hval : (255 : ℚ) * (lightFrac r g b -
                (rgbMax r g b - rgbMin r g b) / 2 * 1) = 255 * rgbMin r g b := by
              rw [hlf]
              ring
            rw [hval, hmn, mul255_div]
          · rw [hform 4]
            have harg : ((4 : ℕ) : ℚ) + 12 * hueFrac r g b = 2 * z + 12 := by
              push_cast
              rw [hk0]
              ring
            rw [harg, jsMod_of_ge (by linarith) (by linarith)]
            have hk : 2 * z + 12 - 12 = 2 * z := by ring
            rw [hk, mClamp_of_le_two (by linarith)]
            have hval : (255 : ℚ) * (lightFrac r g b -
                (rgbMax r g b - rgbMin r g b) / 2 * (-1)) = 255 * rgbMax r g b := by
              rw [hlf]
              ring
            rw [hval, hcb, mul255_div]
        · -- case D2: hue sector [3,4]
          have hmn : rgbMin r g b = (r : ℚ) / 255 := by
            rw [rgbMin, min_eq_left hrg, min_eq_left hrrle]
          have hz1 : z ≤ 0 := div_nonpos_of_nonpos_of_nonneg (by linarith) (le_of_lt hd)
          have hz0 : -1 ≤ z := by
            rw [hzdef, neg_le, ← neg_div, neg_sub, div_le_one hd]
            linarith [hcb ▸ hgx, hmn ▸ hrn]
          have hbr : (b : ℚ) - (r : ℚ) ≠ 0 := by
            rw [hcb, hmn] at hdne
            exact fun h0 => hdne (by rw [div_sub_div_same, h0, zero_div])
          refine ⟨?_, ?_, ?_⟩
          · rw [hform 0]
            have harg : ((0 : ℕ) : ℚ) + 12 * hueFrac r g b = 2 * z + 8 := by
              push_cast
              rw [hk0]
              ring
            rw [harg, jsMod_of_nonneg_lt (by linarith) (by linarith),
              mClamp_of_mem_four_eight (by linarith) (by linarith)]
            have hval : (255 : ℚ) * (lightFrac r g b -
                (rgbMax r g b - rgbMin r g b) / 2 * 1) = 255 * rgbMin r g b := by
              rw [hlf]
              ring
            rw [hval, hmn, mul255_div]
          · rw [hform 8]
            have harg : ((8 : ℕ) : ℚ) + 12 * hueFrac r g b = 2 * z + 16 := by
              push_cast
              rw [hk0]
              ring
            rw [harg, jsMod_of_ge (by linarith) (by linarith)]
            have hk : 2 * z + 16 - 12 = 2 * z + 4 := by ring
            rw [hk, mClamp_of_mem_two_four (by linarith) (by linarith)]
            have hval : lightFrac r g b -
                (rgbMax r g b - rgbMin r g b) / 2 * (2 * z + 4 - 3) = (g : ℚ) / 255 := by
              rw [hlf, hzdef, hcb, hmn]
              field_simp [hbr]
              ring
            rw [hval, mul255_div]
          · rw [hform 4]
            have harg : ((4 : ℕ) : ℚ) + 12 * hueFrac r g b = 2 * z + 12 := by
              push_cast
              rw [hk0]
              ring
            rw [harg]
            have hm1 : mClamp (jsMod (2 * z + 12) 12) = -1 := by
              by_cases h12 : 2 * z + 12 < 12
              · rw [jsMod_of_nonneg_lt (by linarith) h12]
                exact mClamp_of_ge_ten (by linarith)
              · have hz00 : z = 0 := by linarith [not_lt.mp h12]
                rw [hz00]
                norm_num
                rw [jsMod_of_ge (by norm_num) (by norm_num)]
                exact mClamp_of_le_two (by norm_num)
            rw [hm1]
            have hval : (255 : ℚ) * (lightFrac r g b -
                (rgbMax r g b - rgbMin r g b) / 2 * (-1)) = 255 * rgbMax r g b := by
              rw [hlf]
              ring
            rw [hval, hcb, mul255_div]

/-! ### Lipschitz bounds: rounding the HSL moves each channel a little -/

theorem mClamp_lipschitz (x y : ℚ) : |mClamp x - mClamp y| ≤ |x - y| := by
  have h1 : |mClamp x - mClamp y| ≤
      |min (min (x - 3) (9 - x)) 1 - min (min (y - 3) (9 - y)) 1| := by
    calc |mClamp x - mClamp y| ≤
        max |min (min (x - 3) (9 - x)) 1 - min (min (y - 3) (9 - y)) 1| |(-1 : ℚ) - (-1)| :=
          abs_max_sub_max_le_max _ _ _ _
      _ = |min (min (x - 3) (9 - x)) 1 - min (min (y - 3) (9 - y)) 1| := by
          rw [sub_self, abs_zero]
          exact max_eq_left (abs_nonneg _)
  have h2 : |min (min (x - 3) (9 - x)) 1 - min (min (y - 3) (9 - y)) 1| ≤
      |min (x - 3) (9 - x) - min (y - 3) (9 - y)| := by
    calc |min (min (x - 3) (9 - x)) 1 - min (min (y - 3) (9 - y)) 1| ≤
        max |min (x - 3) (9 - x) - min (y - 3) (9 - y)| |(1 : ℚ) - 1| :=
          abs_min_sub_min_le_max _ _ _ _
      _ = |min (x - 3) (9 - x) - min (y - 3) (9 - y)| := by
          rw [sub_self, abs_zero]
          exact max_eq_left (abs_nonneg _)
  have h3 : |min (x - 3) (9 - x) - min (y - 3) (9 - y)| ≤ |x - y| := by
    calc |min (x - 3) (9 - x) - min (y - 3) (9 - y)| ≤
        max |x - 3 - (y - 3)| |9 - x - (9 - y)| := abs_min_sub_min_le_max _ _ _ _
      _ ≤ |x - y| := by
          apply max_le
          · apply le_of_eq
            congr 1
            ring
          · rw [show (9 : ℚ) - x - (9 - y) = -(x - y) by ring, abs_neg]
  linarith

theorem abs_mClamp_le_one (x : ℚ) : |mClamp x| ≤ 1 :=
  abs_le.mpr ⟨neg_one_le_mClamp x, mClamp_le_one x⟩

/-- Lipschitz continuity of the wave across the `% 12` wrap: on [0,24)
the composed map is still 1-Lipschitz for nearby arguments, because the
wave is flat (equal to -1) on both sides of the wrap point. -/
theorem mClamp_jsMod_lipschitz {x y : ℚ} (hx0 : 0 ≤ x) (hx1 : x < 24) (hy0 : 0 ≤ y)
    (hy1 : y < 24) (hclose : |x - y| ≤ 1) :
    |mClamp (jsMod x 12) - mClamp (jsMod y 12)| ≤ |x - y| := by
  have habs := abs_le.mp hclose
  by_cases hx12 : x < 12
  · by_cases hy12 : y < 12
    · rw [jsMod_of_nonneg_lt hx0 hx12, jsMod_of_nonneg_lt hy0 hy12]
      exact mClamp_lipschitz x y
    · -- x < 12 ≤ y, so both sit in the flat region around the wrap
      have hy12' : 12 ≤ y := not_lt.mp hy12
      rw [jsMod_of_nonneg_lt hx0 hx12, jsMod_of_ge hy12' hy1]
      rw [mClamp_of_ge_ten (by linarith), mClamp_of_le_two (by linarith)]
      simpa using abs_nonneg (x - y)
  · have hx12' : 12 ≤ x := not_lt.mp hx12
    by_cases hy12 : y < 12
    · rw [jsMod_of_ge hx12' hx1, jsMod_of_nonneg_lt hy0 hy12]
      rw [mClamp_of_le_two (by linarith), mClamp_of_ge_ten (by linarith)]
      simpa using abs_nonneg (x - y)
    · have hy12' : 12 ≤ y := not_lt.mp hy12
      rw [jsMod_of_ge hx12' hx1, jsMod_of_ge hy12' hy1]
      have harg : x - 12 - (y - 12) = x - y := by ring
      calc |mClamp (x - 12) - mClamp (y - 12)| ≤ |x - 12 - (y - 12)| :=
            mClamp_lipschitz _ _
        _ = |x - y| := by rw [harg]

/-- The half-unit rounding of hue, saturation and lightness moves each
unrounded channel value of `hslToHex` by at most 1/48. -/
theorem chanColor_lipschitz {h1 s1 l1 h2 s2 l2 : ℚ} {n : ℕ}
    (hh1a : 0 ≤ h1) (hh1b : h1 ≤ 360) (hh2a : 0 ≤ h2) (hh2b : h2 ≤ 360)
    (hs1a : 0 ≤ s1) (hs1b : s1 ≤ 100) (hs2a : 0 ≤ s2) (hs2b : s2 ≤ 100)
    (hl1a : 0 ≤ l1) (hl1b : l1 ≤ 100) (hl2a : 0 ≤ l2) (hl2b : l2 ≤ 100)
    (hn : n ≤ 8) (hdh : |h2 - h1| ≤ 1/2) (hds : |s2 - s1| ≤ 1/2) (hdl : |l2 - l1| ≤ 1/2) :
    |chanColor h2 s2 l2 n - chanColor h1 s1 l1 n| ≤ 1/48 := by
  have hdh' := abs_le.mp hdh
  have hds' := abs_le.mp hds
  have hdl' := abs_le.mp hdl
  have ha1_0 : 0 ≤ satMinTerm s1 l1 := satMinTerm_nonneg hs1a hl1a hl1b
  have ha1_half : satMinTerm s1 l1 ≤ 1/2 := satMinTerm_le_half hs1b hs1a hl1a hl1b
  have hm2_0 : 0 ≤ min (l2 / 100) (1 - l2 / 100) := le_min (by linarith) (by linarith)
  have hm2_half : min (l2 / 100) (1 - l2 / 100) ≤ 1/2 := by
    rcases le_total (l2 / 100) (1 - l2 / 100) with hc | hc
    · rw [min_eq_left hc]
      linarith
    · rw [min_eq_right hc]
      linarith
  have hdm : |min (l2 / 100) (1 - l2 / 100) - min (l1 / 100) (1 - l1 / 100)| ≤ 1/200 := by
    calc |min (l2 / 100) (1 - l2 / 100) - min (l1 / 100) (1 - l1 / 100)| ≤
        max |l2 / 100 - l1 / 100| |1 - l2 / 100 - (1 - l1 / 100)| :=
          abs_min_sub_min_le_max _ _ _ _
      _ ≤ 1/200 := by
          apply max_le
          · rw [show l2 / 100 - l1 / 100 = (l2 - l1) / 100 by ring, abs_div]
            rw [abs_of_pos (by norm_num : (0:ℚ) < 100)]
            linarith
          · rw [show (1 : ℚ) - l2 / 100 - (1 - l1 / 100) = -((l2 - l1) / 100) by ring,
              abs_neg, abs_div, abs_of_pos (by norm_num : (0:ℚ) < 100)]
            linarith
  have hda : |satMinTerm s2 l2 - satMinTerm s1 l1| ≤ 3/400 := by
    have hkey : satMinTerm s2 l2 - satMinTerm s1 l1 =
        ((s2 - s1) * min (l2 / 100) (1 - l2 / 100) +
          s1 * (min (l2 / 100) (1 - l2 / 100) - min (l1 / 100) (1 - l1 / 100))) / 100 := by
      rw [satMinTerm, satMinTerm]
      ring
    have hterm1 : |(s2 - s1) * min (l2 / 100) (1 - l2 / 100)| ≤ 1/4 := by
      rw [abs_mul, abs_of_nonneg hm2_0]
      calc |s2 - s1| * min (l2 / 100) (1 - l2 / 100) ≤ (1/2) * (1/2) :=
            mul_le_mul hds hm2_half hm2_0 (by norm_num)
        _ = 1/4 := by norm_num
    have hterm2 : |s1 * (min (l2 / 100) (1 - l2 / 100) - min (l1 / 100) (1 - l1 / 100))| ≤
        1/2 := by
      rw [abs_mul, abs_of_nonneg hs1a]
      calc s1 * |min (l2 / 100) (1 - l2 / 100) - min (l1 / 100) (1 - l1 / 100)| ≤
          100 * (1/200) := mul_le_mul hs1b hdm (abs_nonneg _) (by norm_num)
        _ = 1/2 := by norm_num
    rw [hkey, abs_div, abs_of_pos (by norm_num : (0:ℚ) < 100)]
    have := abs_add ((s2 - s1) * min (l2 / 100) (1 - l2 / 100))
      (s1 * (min (l2 / 100) (1 - l2 / 100) - min (l1 / 100) (1 - l1 / 100)))
    linarith
  have hdM : |mClamp (chanK h2 n) - mClamp (chanK h1 n)| ≤ 1/60 := by
    have hcast : (n : ℚ) ≤ 8 := by exact_mod_cast hn
    have hx0 : 0 ≤ (n : ℚ) + h2 / 30 := by positivity
    have hx1 : (n : ℚ) + h2 / 30 < 24 := by linarith
    have hy0 : 0 ≤ (n : ℚ) + h1 / 30 := by positivity
    have hy1 : (n : ℚ) + h1 / 30 < 24 := by linarith
    have hdiff : (n : ℚ) + h2 / 30 - ((n : ℚ) + h1 / 30) = (h2 - h1) / 30 := by ring
    have hclose : |(n : ℚ) + h2 / 30 - ((n : ℚ) + h1 / 30)| ≤ 1 := by
      rw [hdiff, abs_div, abs_of_pos (by norm_num : (0:ℚ) < 30)]
      linarith
    calc |mClamp (chanK h2 n) - mClamp (chanK h1 n)| ≤
        |(n : ℚ) + h2 / 30 - ((n : ℚ) + h1 / 30)| :=
          mClamp_jsMod_lipschitz hx0 hx1 hy0 hy1 hclose
      _ = |h2 - h1| / 30 := by
          rw [hdiff, abs_div, abs_of_pos (by norm_num : (0:ℚ) < 30)]
      _ ≤ 1/60 := by linarith
  have hsplit : chanColor h2 s2 l2 n - chanColor h1 s1 l1 n =
      (l2 - l1) / 100 - ((satMinTerm s2 l2 - satMinTerm s1 l1) * mClamp (chanK h2 n) +
        satMinTerm s1 l1 * (mClamp (chanK h2 n) - mClamp (chanK h1 n))) := by
    rw [chanColor_eq, chanColor_eq]
    ring
  have ht1 : |(satMinTerm s2 l2 - satMinTerm s1 l1) * mClamp (chanK h2 n)| ≤ 3/400 := by
    rw [abs_mul]
    calc |satMinTerm s2 l2 - satMinTerm s1 l1| * |mClamp (chanK h2 n)| ≤ (3/400) * 1 :=
          mul_le_mul hda (abs_mClamp_le_one (chanK h2 n)) (abs_nonneg _) (by norm_num)
      _ = 3/400 := by norm_num
  have ht2 : |satMinTerm s1 l1 * (mClamp (chanK h2 n) - mClamp (chanK h1 n))| ≤ 1/120 := by
    rw [abs_mul, abs_of_nonneg ha1_0]
    calc satMinTerm s1 l1 * |mClamp (chanK h2 n) - mClamp (chanK h1 n)| ≤ (1/2) * (1/60) :=
          mul_le_mul ha1_half hdM (abs_nonneg _) (by norm_num)
      _ = 1/120 := by norm_num
  have ht0 : |(l2 - l1) / 100| ≤ 1/200 := by
    rw [abs_div, abs_of_pos (by norm_num : (0:ℚ) < 100)]
    linarith
  rw [hsplit]
  have habs1 := abs_add ((satMinTerm s2 l2 - satMinTerm s1 l1) * mClamp (chanK h2 n))
    (satMinTerm s1 l1 * (mClamp (chanK h2 n) - mClamp (chanK h1 n)))
  have habs2 := abs_sub ((l2 - l1) / 100)
    ((satMinTerm s2 l2 - satMinTerm s1 l1) * mClamp (chanK h2 n) +
      satMinTerm s1 l1 * (mClamp (chanK h2 n) - mClamp (chanK h1 n)))
  linarith

/-! ### The round-trip bound -/

theorem jsRound_near {x : ℚ} {m : ℤ} (h : |x - (m : ℚ)| ≤ 255/48) :
    |jsRound x - m| ≤ 5 := by
  have h' := abs_le.mp h
  have hub : jsRound x ≤ m + 5 := by
    have hlt : ⌊x + 1/2⌋ < m + 6 := Int.floor_lt.mpr (by push_cast; linarith)
    rw [jsRound]
    omega
  have hlb : m - 5 ≤ jsRound x := by
    have hle : m - 5 ≤ ⌊x + 1/2⌋ := Int.le_floor.mpr (by push_cast; linarith)
    rw [jsRound]
    omega
  rw [abs_le]
  omega

/-- Each byte produced by feeding the rounded integer HSL back through
`hslToHex` differs from the original byte by at most 5. -/
theorem roundtrip_byte_bounds {r g b : ℕ} (hr : r ≤ 255) (hg : g ≤ 255) (hb : b ≤ 255) :
    |chanByte ((rgbToHsl r g b).1 : ℚ) ((rgbToHsl r g b).2.1 : ℚ)
        ((rgbToHsl r g b).2.2 : ℚ) 0 - (r : ℤ)| ≤ 5 ∧
    |chanByte ((rgbToHsl r g b).1 : ℚ) ((rgbToHsl r g b).2.1 : ℚ)
        ((rgbToHsl r g b).2.2 : ℚ) 8 - (g : ℤ)| ≤ 5 ∧
    |chanByte ((rgbToHsl r g b).1 : ℚ) ((rgbToHsl r g b).2.1 : ℚ)
        ((rgbToHsl r g b).2.2 : ℚ) 4 - (b : ℤ)| ≤ 5 := by
  obtain ⟨hinv0, hinv8, hinv4⟩ := chanColor_inversion hr hg hb
  obtain ⟨hH0, hH1, hS0, hS1, hL0, hL1⟩ := rgbToHsl_ranges hr hg hb
  obtain ⟨hhf0, hhf1⟩ := hueFrac_mem hr hg hb
  obtain ⟨hsf0, hsf1⟩ := satFrac_mem hr hg hb
  obtain ⟨hlf0, hlf1⟩ := lightFrac_mem hr hg hb
  have hHc0 : (0 : ℚ) ≤ ((rgbToHsl r g b).1 : ℚ) := by exact_mod_cast hH0
  have hHc1 : ((rgbToHsl r g b).1 : ℚ) ≤ 360 := by exact_mod_cast hH1
  have hSc0 : (0 : ℚ) ≤ ((rgbToHsl r g b).2.1 : ℚ) := by exact_mod_cast hS0
  have hSc1 : ((rgbToHsl r g b).2.1 : ℚ) ≤ 100 := by exact_mod_cast hS1
  have hLc0 : (0 : ℚ) ≤ ((rgbToHsl r g b).2.2 : ℚ) := by exact_mod_cast hL0
  have hLc1 : ((rgbToHsl r g b).2.2 : ℚ) ≤ 100 := by exact_mod_cast hL1
  have hdh : |((rgbToHsl r g b).1 : ℚ) - hueFrac r g b * 360| ≤ 1/2 :=
    jsRound_close (hueFrac r g b * 360)
  have hds : |((rgbToHsl r g b).2.1 : ℚ) - satFrac r g b * 100| ≤ 1/2 :=
    jsRound_close (satFrac r g b * 100)
  have hdl : |((rgbToHsl r g b).2.2 : ℚ) - lightFrac r g b * 100| ≤ 1/2 :=
    jsRound_close (lightFrac r g b * 100)
  have hkey : ∀ n : ℕ, n ≤ 8 →
      ∀ c : ℕ, 255 * chanColor (hueFrac r g b * 360) (satFrac r g b * 100)
          (lightFrac r g b * 100) n = c →
        |chanByte ((rgbToHsl r g b).1 : ℚ) ((rgbToHsl r g b).2.1 : ℚ)
          ((rgbToHsl r g b).2.2 : ℚ) n - (c : ℤ)| ≤ 5 := by
    intro n hn c hc
    have hlip := chanColor_lipschitz (n := n)
      (by linarith : (0:ℚ) ≤ hueFrac r g b * 360) (by linarith) hHc0 hHc1
      (by linarith : (0:ℚ) ≤ satFrac r g b * 100) (by linarith) hSc0 hSc1
      (by linarith : (0:ℚ) ≤ lightFrac r g b * 100) (by linarith) hLc0 hLc1
      hn hdh hds hdl
    apply jsRound_near
    have hval : 255 * chanColor ((rgbToHsl r g b).1 : ℚ) ((rgbToHsl r g b).2.1 : ℚ)
        ((rgbToHsl r g b).2.2 : ℚ) n - ((c : ℤ) : ℚ) =
        255 * (chanColor ((rgbToHsl r g b).1 : ℚ) ((rgbToHsl r g b).2.1 : ℚ)
          ((rgbToHsl r g b).2.2 : ℚ) n -
          chanColor (hueFrac r g b * 360) (satFrac r g b * 100)
            (lightFrac r g b * 100) n) := by
      push_cast
      rw [← hc]
      ring
    rw [hval, abs_mul, abs_of_pos (by norm_num : (0:ℚ) < 255)]
    calc (255 : ℚ) * |chanColor ((rgbToHsl r g b).1 : ℚ) ((rgbToHsl r g b).2.1 : ℚ)
          ((rgbToHsl r g b).2.2 : ℚ) n -
          chanColor (hueFrac r g b * 360) (satFrac r g b * 100)
            (lightFrac r g b * 100) n| ≤ 255 * (1/48) :=
          mul_le_mul_of_nonneg_left hlip (by norm_num)
      _ = 255/48 := by norm_num
  exact ⟨hkey 0 (by norm_num) r hinv0, hkey 8 (by norm_num) g hinv8,
    hkey 4 (by norm_num) b hinv4⟩

/-- C1 counterexample: on `#02e4e6` the round trip returns `#02dfe3`,
whose green byte differs from the original by 5, so the claimed
"at most 1 per byte" bound fails. -/
theorem C1_counterexample_02e4e6 :
    validHex "#02e4e6" = true ∧ hexRoundTrip "#02e4e6" = "#02dfe3" ∧
    ¬ (hexRoundTrip "#02e4e6" = "#02e4e6" ∨
       (|((hexToRgb (hexRoundTrip "#02e4e6")).1 : ℤ) - ((hexToRgb "#02e4e6").1 : ℤ)| ≤ 1 ∧
        |((hexToRgb (hexRoundTrip "#02e4e6")).2.1 : ℤ) - ((hexToRgb "#02e4e6").2.1 : ℤ)| ≤ 1 ∧
        |((hexToRgb (hexRoundTrip "#02e4e6")).2.2 : ℤ) - ((hexToRgb "#02e4e6").2.2 : ℤ)| ≤ 1)) := by
  with_unfolding_all decide

/-- C1 (amended): for every valid 6-digit hex color H, converting to HSL
with hexToHsl and back with hslToHex yields H itself or a hex string
whose three decoded RGB bytes each differ from H's by at most 5 (the
bound 5 is attained, e.g. at `#02e4e6`). -/
theorem C1_roundtrip_within_5 (H : String) (hval : validHex H = true) :
    |((hexToRgb (hexRoundTrip H)).1 : ℤ) - ((hexToRgb H).1 : ℤ)| ≤ 5 ∧
    |((hexToRgb (hexRoundTrip H)).2.1 : ℤ) - ((hexToRgb H).2.1 : ℤ)| ≤ 5 ∧
    |((hexToRgb (hexRoundTrip H)).2.2 : ℤ) - ((hexToRgb H).2.2 : ℤ)| ≤ 5 := by
  obtain ⟨hr, hg, hb⟩ := hexToRgb_le_255 H
  obtain ⟨hH0, hH1, hS0, hS1, hL0, hL1⟩ :=
    rgbToHsl_ranges (r := (hexToRgb H).1) (g := (hexToRgb H).2.1) (b := (hexToRgb H).2.2)
      hr hg hb
  have hSc0 : (0 : ℚ) ≤ ((rgbToHsl (hexToRgb H).1 (hexToRgb H).2.1 (hexToRgb H).2.2).2.1 : ℚ) := by
    exact_mod_cast hS0
  have hSc1 : ((rgbToHsl (hexToRgb H).1 (hexToRgb H).2.1 (hexToRgb H).2.2).2.1 : ℚ) ≤ 100 := by
    exact_mod_cast hS1
  have hLc0 : (0 : ℚ) ≤ ((rgbToHsl (hexToRgb H).1 (hexToRgb H).2.1 (hexToRgb H).2.2).2.2 : ℚ) := by
    exact_mod_cast hL0
  have hLc1 : ((rgbToHsl (hexToRgb H).1 (hexToRgb H).2.1 (hexToRgb H).2.2).2.2 : ℚ) ≤ 100 := by
    exact_mod_cast hL1
  have hrt : hexRoundTrip H =
      hslToHex ((rgbToHsl (hexToRgb H).1 (hexToRgb H).2.1 (hexToRgb H).2.2).1 : ℚ)
        ((rgbToHsl (hexToRgb H).1 (hexToRgb H).2.1 (hexToRgb H).2.2).2.1 : ℚ)
        ((rgbToHsl (hexToRgb H).1 (hexToRgb H).2.1 (hexToRgb H).2.2).2.2 : ℚ) := rfl
  have hparse := hexToRgb_hslToHex
    (h := ((rgbToHsl (hexToRgb H).1 (hexToRgb H).2.1 (hexToRgb H).2.2).1 : ℚ))
    hSc0 hSc1 hLc0 hLc1
  obtain ⟨hb0, _⟩ := chanByte_mem
    (h := ((rgbToHsl (hexToRgb H).1 (hexToRgb H).2.1 (hexToRgb H).2.2).1 : ℚ))
    hSc0 hSc1 hLc0 hLc1 0
  obtain ⟨hb8, _⟩ := chanByte_mem
    (h := ((rgbToHsl (hexToRgb H).1 (hexToRgb H).2.1 (hexToRgb H).2.2).1 : ℚ))
    hSc0 hSc1 hLc0 hLc1 8
  obtain ⟨hb4, _⟩ := chanByte_mem
    (h := ((rgbToHsl (hexToRgb H).1 (hexToRgb H).2.1 (hexToRgb H).2.2).1 : ℚ))
    hSc0 hSc1 hLc0 hLc1 4
  obtain ⟨hk0, hk8, hk4⟩ := roundtrip_byte_bounds hr hg hb
  rw [hrt, hparse]
  refine ⟨?_, ?_, ?_⟩
  · rw [Int.toNat_of_nonneg hb0]
    exact hk0
  · rw [Int.toNat_of_nonneg hb8]
    exact hk8
  · rw [Int.toNat_of_nonneg hb4]
    exact hk4

/-- C1 witness: the round-trip bound applied at `#5468ff`. -/
theorem C1_witness :
    validHex "#5468ff" = true ∧
      (|((hexToRgb (hexRoundTrip "#5468ff")).1 : ℤ) - ((hexToRgb "#5468ff").1 : ℤ)| ≤ 5 ∧
       |((hexToRgb (hexRoundTrip "#5468ff")).2.1 : ℤ) - ((hexToRgb "#5468ff").2.1 : ℤ)| ≤ 5 ∧
       |((hexToRgb (hexRoundTrip "#5468ff")).2.2 : ℤ) - ((hexToRgb "#5468ff").2.2 : ℤ)| ≤ 5) :=
  ⟨by decide, C1_roundtrip_within_5 "#5468ff" (by decide)⟩

/-! ### Variant decoding: byte extremes of `hslToHex` -/

/-- For any hue in [0,360], one of the three channels sits on the floor
of the wave (value -1, the max channel) and one on its crest (value 1,
the min channel). -/
theorem extreme_channels {h : ℚ} (hh0 : 0 ≤ h) (hh1 : h ≤ 360) :
    (mClamp (chanK h 0) = -1 ∨ mClamp (chanK h 8) = -1 ∨ mClamp (chanK h 4) = -1) ∧
    (mClamp (chanK h 0) = 1 ∨ mClamp (chanK h 8) = 1 ∨ mClamp (chanK h 4) = 1) := by
  have e0 : chanK h 0 = jsMod (h / 30) 12 := by
    rw [chanK]
    norm_num
  have e8 : chanK h 8 = jsMod (8 + h / 30) 12 := by
    rw [chanK]
    norm_num
  have e4 : chanK h 4 = jsMod (4 + h / 30) 12 := by
    rw [chanK]
    norm_num
  rcases lt_or_le h 60 with hc | hc
  · constructor
    · left
      rw [e0, jsMod_of_nonneg_lt (by positivity) (by linarith)]
      exact mClamp_of_le_two (by linarith)
    · right
      right
      rw [e4, jsMod_of_nonneg_lt (by positivity) (by linarith)]
      exact mClamp_of_mem_four_eight (by linarith) (by linarith)
  rcases lt_or_le h 120 with hc2 | hc2
  · constructor
    · right
      left
      rw [e8, jsMod_of_nonneg_lt (by positivity) (by linarith)]
      exact mClamp_of_ge_ten (by linarith)
    · right
      right
      rw [e4, jsMod_of_nonneg_lt (by positivity) (by linarith)]
      exact mClamp_of_mem_four_eight (by linarith) (by linarith)
  rcases lt_or_le h 180 with hc3 | hc3
  · constructor
    · right
      left
      rw [e8, jsMod_of_ge (by linarith) (by linarith)]
      exact mClamp_of_le_two (by linarith)
    · left
      rw [e0, jsMod_of_nonneg_lt (by positivity) (by linarith)]
      exact mClamp_of_mem_four_eight (by linarith) (by linarith)
  rcases lt_or_le h 240 with hc4 | hc4
  · constructor
    · right
      right
      rw [e4, jsMod_of_nonneg_lt (by positivity) (by linarith)]
      exact mClamp_of_ge_ten (by linarith)
    · left
      rw [e0, jsMod_of_nonneg_lt (by positivity) (by linarith)]
      exact mClamp_of_mem_four_eight (by linarith) (by linarith)
  rcases lt_or_le h 300 with hc5 | hc5
  · constructor
    · right
      right
      rw [e4, jsMod_of_ge (by linarith) (by linarith)]
      exact mClamp_of_le_two (by linarith)
    · right
      left
      rw [e8, jsMod_of_ge (by linarith) (by linarith)]
      exact mClamp_of_mem_four_eight (by linarith) (by linarith)
  · constructor
    · left
      rw [e0]
      by_cases h12 : h / 30 < 12
      · rw [jsMod_of_nonneg_lt (by positivity) h12]
        exact mClamp_of_ge_ten (by linarith)
      · have hexact : h / 30 = 12 := by
          have := not_lt.mp h12
          linarith
        rw [hexact, jsMod_of_ge (by norm_num) (by norm_num)]
        exact mClamp_of_le_two (by norm_num)
    · right
      left
      rw [e8, jsMod_of_ge (by linarith) (by linarith)]
      exact mClamp_of_mem_four_eight (by linarith) (by linarith)

/-- Among the three bytes of `hslToHex`, the largest is always the
rounding of `255(l + a)` and the smallest the rounding of `255(l - a)`. -/
theorem hslToHex_byte_max_min {h s l : ℚ} (hh0 : 0 ≤ h) (hh1 : h ≤ 360)
    (hs0 : 0 ≤ s) (hs1 : s ≤ 100) (hl0 : 0 ≤ l) (hl1 : l ≤ 100) :
    max (max (chanByte h s l 0) (chanByte h s l 8)) (chanByte h s l 4) =
      jsRound (255 * (l / 100 + satMinTerm s l)) ∧
    min (min (chanByte h s l 0) (chanByte h s l 8)) (chanByte h s l 4) =
      jsRound (255 * (l / 100 - satMinTerm s l)) := by
  have hub : ∀ n : ℕ, chanByte h s l n ≤ jsRound (255 * (l / 100 + satMinTerm s l)) := by
    intro n
    apply jsRound_mono
    have := (chanColor_bounds (h := h) hs0 hs1 hl0 hl1 n).2
    nlinarith
  have hlb : ∀ n : ℕ, jsRound (255 * (l / 100 - satMinTerm s l)) ≤ chanByte h s l n := by
    intro n
    apply jsRound_mono
    have := (chanColor_bounds (h := h) hs0 hs1 hl0 hl1 n).1
    nlinarith
  have hchan : ∀ n : ℕ, mClamp (chanK h n) = -1 →
      chanByte h s l n = jsRound (255 * (l / 100 + satMinTerm s l)) := by
    intro n hm
    rw [chanByte, chanColor_eq, hm]
    congr 1
    ring
  have hchan' : ∀ n : ℕ, mClamp (chanK h n) = 1 →
      chanByte h s l n = jsRound (255 * (l / 100 - satMinTerm s l)) := by
    intro n hm
    rw [chanByte, chanColor_eq, hm]
    congr 1
    ring
  obtain ⟨hmax, hmin⟩ := extreme_channels hh0 hh1
  constructor
  · apply le_antisymm (max_le (max_le (hub 0) (hub 8)) (hub 4))
    rcases hmax with hm | hm | hm
    · exact le_trans (le_of_eq (hchan 0 hm).symm)
        (le_trans (le_max_left _ _) (le_max_left _ _))
    · exact le_trans (le_of_eq (hchan 8 hm).symm)
        (le_trans (le_max_right _ _) (le_max_left _ _))
    · exact le_trans (le_of_eq (hchan 4 hm).symm) (le_max_right _ _)
  · apply le_antisymm _ (le_min (le_min (hlb 0) (hlb 8)) (hlb 4))
    rcases hmin with hm | hm | hm
    · exact le_trans (le_trans (min_le_left _ _) (min_le_left _ _))
        (le_of_eq (hchan' 0 hm))
    · exact le_trans (le_trans (min_le_left _ _) (min_le_right _ _))
        (le_of_eq (hchan' 8 hm))
    · exact le_trans (min_le_right _ _) (le_of_eq (hchan' 4 hm))

/-! ### Decoding the generated variant -/

theorem div255_max (a b : ℚ) : max (a / 255) (b / 255) = max a b / 255 := by
  rcases le_total a b with hab | hab
  · rw [max_eq_right hab, max_eq_right (by linarith : a / 255 ≤ b / 255)]
  · rw [max_eq_left hab, max_eq_left (by linarith : b / 255 ≤ a / 255)]

theorem div255_min (a b : ℚ) : min (a / 255) (b / 255) = min a b / 255 := by
  rcases le_total a b with hab | hab
  · rw [min_eq_left hab, min_eq_left (by linarith : a / 255 ≤ b / 255)]
  · rw [min_eq_right hab, min_eq_right (by linarith : b / 255 ≤ a / 255)]

theorem rgbMax_natCast (x y z : ℕ) :
    rgbMax x y z = ((max (max x y) z : ℕ) : ℚ) / 255 := by
  rw [rgbMax, div255_max, div255_max]
  norm_cast

theorem rgbMin_natCast (x y z : ℕ) :
    rgbMin x y z = ((min (min x y) z : ℕ) : ℚ) / 255 := by
  rw [rgbMin, div255_min, div255_min]
  norm_cast

theorem toNat_max (a b : ℤ) : (max a b).toNat = max a.toNat b.toNat := by
  rcases le_total a b with hab | hab
  · rw [max_eq_right hab, max_eq_right (Int.toNat_le_toNat hab)]
  · rw [max_eq_left hab, max_eq_left (Int.toNat_le_toNat hab)]

theorem toNat_min {a b : ℤ} (ha : 0 ≤ a) (hb : 0 ≤ b) :
    (min a b).toNat = min a.toNat b.toNat := by
  rcases le_total a b with hab | hab
  · rw [min_eq_left hab, min_eq_left (Int.toNat_le_toNat hab)]
  · rw [min_eq_right hab, min_eq_right (Int.toNat_le_toNat hab)]

theorem div100_min (a b : ℚ) : min (a / 100) (b / 100) = min a b / 100 := by
  rcases le_total a b with hab | hab
  · rw [min_eq_left hab, min_eq_left (by linarith : a / 100 ≤ b / 100)]
  · rw [min_eq_right hab, min_eq_right (by linarith : b / 100 ≤ a / 100)]

set_option maxRecDepth 40000 in
set_option maxHeartbeats 4000000 in
/-- Finite check over all reachable (saturation, lightness) pairs of the
variant generator: decoding the emitted bytes returns the lightness
exactly, and a saturation within [9,96]. -/
theorem variant_decode_table :
    ∀ S ∈ Finset.range 96, ∀ L ∈ Finset.range 96, 10 ≤ S → 5 ≤ L →
      (variantByteLo S L < variantByteHi S L ∧ variantByteHi S L ≤ 255 ∧
       decodeLight (variantByteHi S L) (variantByteLo S L) = L ∧
       9 ≤ decodeSat (variantByteHi S L) (variantByteLo S L) ∧
       decodeSat (variantByteHi S L) (variantByteLo S L) ≤ 96) := by decide

/-- The exact `min(l, 1-l)` at an integer lightness percent, as a natural
minimum. -/
theorem minTerm_natCast {L : ℕ} (hL1 : L ≤ 100) :
    min ((L : ℚ) / 100) (1 - (L : ℚ) / 100) = ((min L (100 - L) : ℕ) : ℚ) / 100 := by
  have h1 : (1 : ℚ) - (L : ℚ) / 100 = ((100 - L : ℕ) : ℚ) / 100 := by
    rw [Nat.cast_sub hL1]
    push_cast
    ring
  rw [h1, div100_min]
  norm_cast

/-- The rounded high byte of `hslToHex` at integer percentages is
`variantByteHi`. -/
theorem jsRound_hi_eq {S L : ℕ} (hS1 : S ≤ 100) (hL1 : L ≤ 100) :
    jsRound (255 * ((L : ℚ) / 100 + satMinTerm (S : ℚ) (L : ℚ))) =
      (variantByteHi S L : ℤ) := by
  have harg : 255 * ((L : ℚ) / 100 + satMinTerm (S : ℚ) (L : ℚ)) =
      ((255 * (100 * L + S * min L (100 - L)) : ℕ) : ℚ) / ((10000 : ℕ) : ℚ) := by
    rw [satMinTerm, minTerm_natCast hL1]
    push_cast
    ring
  rw [harg, jsRound_natDiv _ _ (by norm_num)]
  simp only [variantByteHi]

/-- The rounded low byte of `hslToHex` at integer percentages is
`variantByteLo`. -/
theorem jsRound_lo_eq {S L : ℕ} (hS1 : S ≤ 100) (hL1 : L ≤ 100) :
    jsRound (255 * ((L : ℚ) / 100 - satMinTerm (S : ℚ) (L : ℚ))) =
      (variantByteLo S L : ℤ) := by
  have hmle : S * min L (100 - L) ≤ 100 * L := by
    calc S * min L (100 - L) ≤ 100 * min L (100 - L) :=
          Nat.mul_le_mul_right _ hS1
      _ ≤ 100 * L := Nat.mul_le_mul_left _ (min_le_left _ _)
  have harg : 255 * ((L : ℚ) / 100 - satMinTerm (S : ℚ) (L : ℚ)) =
      ((255 * (100 * L - S * min L (100 - L)) : ℕ) : ℚ) / ((10000 : ℕ) : ℚ) := by
    rw [satMinTerm, minTerm_natCast hL1]
    rw [Nat.cast_mul, Nat.cast_sub hmle]
    push_cast
    ring
  rw [harg, jsRound_natDiv _ _ (by norm_num)]
  simp only [variantByteLo]

theorem satFrac_eq_of_ne {r g b : ℕ} (hne : rgbMax r g b ≠ rgbMin r g b) :
    satFrac r g b =
      if lightFrac r g b > 1/2 then
        (rgbMax r g b - rgbMin r g b) / (2 - rgbMax r g b - rgbMin r g b)
      else (rgbMax r g b - rgbMin r g b) / (rgbMax r g b + rgbMin r g b) := by
  rw [satFrac, if_neg hne]

/-- Decoding the string emitted by `hslToHex` at a hue in [0,360] and
integer percentages `S ∈ [10,95]`, `L ∈ [5,95]`: the lightness comes back
exactly, the saturation within [9,96]. -/
theorem variant_decode {h : ℚ} (hh0 : 0 ≤ h) (hh1 : h ≤ 360) (S L : ℕ)
    (hS0 : 10 ≤ S) (hS1 : S ≤ 95) (hL0 : 5 ≤ L) (hL1 : L ≤ 95) :
    (hexToHsl (hslToHex h (S : ℚ) (L : ℚ))).2.2 = (L : ℤ) ∧
    9 ≤ (hexToHsl (hslToHex h (S : ℚ) (L : ℚ))).2.1 ∧
    (hexToHsl (hslToHex h (S : ℚ) (L : ℚ))).2.1 ≤ 96 := by
  have hs0q : (0 : ℚ) ≤ (S : ℚ) := by positivity
  have hs1q : (S : ℚ) ≤ 100 := by exact_mod_cast (by omega : S ≤ 100)
  have hl0q : (0 : ℚ) ≤ (L : ℚ) := by positivity
  have hl1q : (L : ℚ) ≤ 100 := by exact_mod_cast (by omega : L ≤ 100)
  have hparse := hexToRgb_hslToHex (h := h) hs0q hs1q hl0q hl1q
  obtain ⟨h00, h01⟩ := chanByte_mem (h := h) hs0q hs1q hl0q hl1q 0
  obtain ⟨h80, h81⟩ := chanByte_mem (h := h) hs0q hs1q hl0q hl1q 8
  obtain ⟨h40, h41⟩ := chanByte_mem (h := h) hs0q hs1q hl0q hl1q 4
  obtain ⟨hmx, hmn⟩ := hslToHex_byte_max_min hh0 hh1 hs0q hs1q hl0q hl1q
  set N0 := (chanByte h (S : ℚ) (L : ℚ) 0).toNat with hN0
  set N8 := (chanByte h (S : ℚ) (L : ℚ) 8).toNat with hN8
  set N4 := (chanByte h (S : ℚ) (L : ℚ) 4).toNat with hN4
  have hdec : hexToHsl (hslToHex h (S : ℚ) (L : ℚ)) = rgbToHsl N0 N8 N4 := by
    simp only [hexToHsl, hparse]
  have hNmx : max (max N0 N8) N4 = variantByteHi S L := by
    rw [hN0, hN8, hN4, ← toNat_max, ← toNat_max, hmx,
      jsRound_hi_eq (by omega) (by omega), Int.toNat_natCast]
  have hNmn : min (min N0 N8) N4 = variantByteLo S L := by
    rw [hN0, hN8, hN4, ← toNat_min h00 h80, ← toNat_min (le_min h00 h80) h40, hmn,
      jsRound_lo_eq (by omega) (by omega), Int.toNat_natCast]
  obtain ⟨htlt, ht255, htl, hts9, hts96⟩ :=
    variant_decode_table S (Finset.mem_range.mpr (by omega)) L
      (Finset.mem_range.mpr (by omega)) hS0 hL0
  set BMX := variantByteHi S L with hBMX
  set BMN := variantByteLo S L with hBMN
  have hmxQ : rgbMax N0 N8 N4 = (BMX : ℚ) / 255 := by
    rw [rgbMax_natCast, hNmx]
  have hmnQ : rgbMin N0 N8 N4 = (BMN : ℚ) / 255 := by
    rw [rgbMin_natCast, hNmn]
  have hsum509 : BMX + BMN ≤ 509 := by omega
  have hlfQ : lightFrac N0 N8 N4 * 100 =
      ((100 * (BMX + BMN) : ℕ) : ℚ) / ((510 : ℕ) : ℚ) := by
    rw [lightFrac_def, hmxQ, hmnQ]
    push_cast
    ring
  have hdecl : (rgbToHsl N0 N8 N4).2.2 = (L : ℤ) := by
    show jsRound (lightFrac N0 N8 N4 * 100) = (L : ℤ)
    rw [hlfQ, jsRound_natDiv _ _ (by norm_num)]
    simp only [decodeLight] at htl
    exact_mod_cast (by omega : (2 * (100 * (BMX + BMN)) + 510) / (2 * 510) = L)
  have hltQ : (BMN : ℚ) < (BMX : ℚ) := by exact_mod_cast htlt
  have hneq : rgbMax N0 N8 N4 ≠ rgbMin N0 N8 N4 := by
    rw [hmxQ, hmnQ]
    exact (by linarith : (BMN : ℚ) / 255 < (BMX : ℚ) / 255).ne'
  have hdecs : (rgbToHsl N0 N8 N4).2.1 = (decodeSat BMX BMN : ℤ) := by
    show jsRound (satFrac N0 N8 N4 * 100) = (decodeSat BMX BMN : ℤ)
    by_cases hcond : 255 < BMX + BMN
    · have hcondQ : (255 : ℚ) < (BMX : ℚ) + BMN := by exact_mod_cast hcond
      have hl2 : lightFrac N0 N8 N4 > 1/2 := by
        rw [lightFrac_def, hmxQ, hmnQ]
        linarith
      have hq : satFrac N0 N8 N4 * 100 =
          ((100 * (BMX - BMN) : ℕ) : ℚ) / ((510 - (BMX + BMN) : ℕ) : ℚ) := by
        rw [satFrac_eq_of_ne hneq, if_pos hl2, hmxQ, hmnQ]
        rw [Nat.cast_mul, Nat.cast_sub (le_of_lt htlt),
          Nat.cast_sub (by omega : BMX + BMN ≤ 510)]
        have hsumQ : (BMX : ℚ) + BMN ≤ 509 := by exact_mod_cast hsum509
        have hd1 : (0 : ℚ) < 2 - (BMX : ℚ) / 255 - (BMN : ℚ) / 255 := by linarith
        push_cast
        rw [div_mul_eq_mul_div]
        rw [div_eq_div_iff (by linarith) (by linarith)]
        ring
      rw [hq, jsRound_natDiv _ _ (by omega : 0 < 510 - (BMX + BMN))]
      simp only [decodeSat, if_pos hcond]
    · have hcondQ : (BMX : ℚ) + BMN ≤ 255 := by exact_mod_cast not_lt.mp hcond
      have hl2 : ¬ lightFrac N0 N8 N4 > 1/2 := by
        rw [lightFrac_def, hmxQ, hmnQ]
        push_neg
        linarith
      have hsumpos : 0 < BMX + BMN := by omega
      have hq : satFrac N0 N8 N4 * 100 =
          ((100 * (BMX - BMN) : ℕ) : ℚ) / ((BMX + BMN : ℕ) : ℚ) := by
        rw [satFrac_eq_of_ne hneq, if_neg hl2, hmxQ, hmnQ]
        rw [Nat.cast_mul, Nat.cast_sub (le_of_lt htlt)]
        have hden : (0 : ℚ) < (BMX : ℚ) + BMN := by
          have : (0 : ℕ) < BMX + BMN := hsumpos
          exact_mod_cast this
        have hd1 : (0 : ℚ) < (BMX : ℚ) / 255 + (BMN : ℚ) / 255 := by linarith
        push_cast
        rw [div_mul_eq_mul_div]
        rw [div_eq_div_iff (by linarith) (by linarith)]
        ring
      rw [hq, jsRound_natDiv _ _ hsumpos]
      simp only [decodeSat, if_neg hcond]
  rw [hdec, hdecl, hdecs]
  refine ⟨rfl, ?_, ?_⟩
  · exact_mod_cast hts9
  · exact_mod_cast hts96

/-- C2 counterexample: from reference `#ffffff` (lightness 100) with the
legal draw lightShift = 12, satShift = 0, the variant decodes to
lightness 95, a shift of only 5: clamping defeats the claimed minimum
shift of 12 (the decoded saturation 12 also differs from the clamped 10). -/
theorem C2_counterexample_white :
    validHex "#ffffff" = true ∧ ((12:ℤ) ≤ 12 ∧ (12:ℤ) ≤ 20) ∧
    hexToHsl (generateVariantFromHex "#ffffff" 12 0) = (0, 12, 95) ∧
    (hexToHsl "#ffffff").2.2 = 100 ∧
    ¬ (12 ≤ |(hexToHsl (generateVariantFromHex "#ffffff" 12 0)).2.2 -
        (hexToHsl "#ffffff").2.2|) := by
  with_unfolding_all decide

/-- C2 (amended): for every valid reference hex and every draw the code
can make, the variant, decoded back to HSL, has saturation in [9,96] and
lightness in [5,95], and its lightness differs from the reference's by at
least 12 unless the clamp pinned it at a bound (decoded lightness 5 or
95). -/
theorem C2_variant_bounds (hex : String) (lightShift satShift : ℤ)
    (hval : validHex hex = true)
    (hls : (12 ≤ lightShift ∧ lightShift ≤ 20) ∨ (-20 ≤ lightShift ∧ lightShift ≤ -12))
    (hss : (-8 ≤ satShift ∧ satShift ≤ 8) ∨ (6 ≤ satShift ∧ satShift ≤ 14) ∨
      (-14 ≤ satShift ∧ satShift ≤ -6)) :
    9 ≤ (hexToHsl (generateVariantFromHex hex lightShift satShift)).2.1 ∧
    (hexToHsl (generateVariantFromHex hex lightShift satShift)).2.1 ≤ 96 ∧
    5 ≤ (hexToHsl (generateVariantFromHex hex lightShift satShift)).2.2 ∧
    (hexToHsl (generateVariantFromHex hex lightShift satShift)).2.2 ≤ 95 ∧
    (12 ≤ |(hexToHsl (generateVariantFromHex hex lightShift satShift)).2.2 -
        (hexToHsl hex).2.2| ∨
      (hexToHsl (generateVariantFromHex hex lightShift satShift)).2.2 = 5 ∨
      (hexToHsl (generateVariantFromHex hex lightShift satShift)).2.2 = 95) := by
  obtain ⟨hh0, hh1, hs0, hs1, hl0, hl1⟩ := hexToHsl_ranges hex
  set base := hexToHsl hex with hbase
  set newS := clamp (base.2.1 + satShift) 10 95 with hnewS
  set newL := clamp (base.2.2 + lightShift) 5 95 with hnewL
  have hSrange : 10 ≤ newS ∧ newS ≤ 95 := by
    rw [hnewS, clamp]
    omega
  have hLrange : 5 ≤ newL ∧ newL ≤ 95 := by
    rw [hnewL, clamp]
    omega
  have hgen : generateVariantFromHex hex lightShift satShift =
      hslToHex (base.1 : ℚ) (newS : ℚ) (newL : ℚ) := rfl
  have hSn : ((newS.toNat : ℕ) : ℚ) = (newS : ℚ) := by
    have := Int.toNat_of_nonneg (by omega : (0:ℤ) ≤ newS)
    exact_mod_cast congrArg (fun z : ℤ => (z : ℚ)) this
  have hLn : ((newL.toNat : ℕ) : ℚ) = (newL : ℚ) := by
    have := Int.toNat_of_nonneg (by omega : (0:ℤ) ≤ newL)
    exact_mod_cast congrArg (fun z : ℤ => (z : ℚ)) this
  have hhq0 : (0:ℚ) ≤ (base.1 : ℚ) := by exact_mod_cast hh0
  have hhq1 : (base.1 : ℚ) ≤ 360 := by exact_mod_cast hh1
  obtain ⟨hdl, hds9, hds96⟩ := variant_decode hhq0 hhq1 newS.toNat newL.toNat
    (by omega) (by omega) (by omega) (by omega)
  rw [hSn, hLn] at hdl hds9 hds96
  have htn : ((newL.toNat : ℕ) : ℤ) = newL := Int.toNat_of_nonneg (by omega)
  rw [htn] at hdl
  rw [hgen]
  refine ⟨hds9, hds96, ?_, ?_, ?_⟩
  · rw [hdl]
    omega
  · rw [hdl]
    omega
  · rw [hdl, hnewL, clamp, Int.abs_eq_natAbs]
    rcases hls with ⟨ha, hb⟩ | ⟨ha, hb⟩ <;> omega

/-- C2 witness: the variant bounds applied at `#5468ff` with the draw
lightShift = 12, satShift = 0. -/
theorem C2_witness :
    (validHex "#5468ff" = true ∧
      (((12:ℤ) ≤ 12 ∧ (12:ℤ) ≤ 20) ∨ ((-20:ℤ) ≤ 12 ∧ (12:ℤ) ≤ -12)) ∧
      (((-8:ℤ) ≤ 0 ∧ (0:ℤ) ≤ 8) ∨ ((6:ℤ) ≤ 0 ∧ (0:ℤ) ≤ 14) ∨
        ((-14:ℤ) ≤ 0 ∧ (0:ℤ) ≤ -6))) ∧
    (9 ≤ (hexToHsl (generateVariantFromHex "#5468ff" 12 0)).2.1 ∧
     (hexToHsl (generateVariantFromHex "#5468ff" 12 0)).2.1 ≤ 96 ∧
     5 ≤ (hexToHsl (generateVariantFromHex "#5468ff" 12 0)).2.2 ∧
     (hexToHsl (generateVariantFromHex "#5468ff" 12 0)).2.2 ≤ 95 ∧
     (12 ≤ |(hexToHsl (generateVariantFromHex "#5468ff" 12 0)).2.2 -
         (hexToHsl "#5468ff").2.2| ∨
       (hexToHsl (generateVariantFromHex "#5468ff" 12 0)).2.2 = 5 ∨
       (hexToHsl (generateVariantFromHex "#5468ff" 12 0)).2.2 = 95)) :=
  ⟨⟨by decide, Or.inl (by decide), Or.inl (by decide)⟩,
    C2_variant_bounds "#5468ff" 12 0 (by decide) (Or.inl (by decide))
      (Or.inl (by decide))⟩

end HexPalette
